import Mathlib

/-! Verification of the MapRoute-Agent message-to-route pipeline.

The Python source is embedded shallowly: strings are Lean `String`s (lists of
characters), floats are rationals, HTTP calls are explicit response oracles,
and exceptions are explicit `Except` values.  Every definition is executable
and follows the corresponding function of the repository. -/

set_option maxHeartbeats 1000000
set_option maxRecDepth 16384

namespace MapRoute

attribute [local semireducible] Rat.add Rat.mul Rat.sub Rat.inv Rat.ofScientific

/-- Characters treated as whitespace by Python `str.strip`, `str.split` and by
the regex class `\s` in ASCII text: space, tab, newline, carriage return,
vertical tab and form feed (the repository only handles ASCII payload text,
so the additional Unicode whitespace of Python is not modelled). -/
def isPyWs (c : Char) : Bool :=
  c = ' ' || c = '\t' || c = '\n' || c = '\r' || c = '\x0b' || c = '\x0c'

/-- Embedding of Python `str.strip()` on a character list: drop leading and
trailing whitespace. -/
def pyStripList (cs : List Char) : List Char :=
  ((cs.dropWhile isPyWs).reverse.dropWhile isPyWs).reverse

/-- Embedding of Python `str.strip()`. -/
def pyStrip (s : String) : String :=
  String.mk (pyStripList s.data)

/-- Length bound for `dropWhile`, used for the trimmed-length bound. -/
theorem length_dropWhile_le (p : Char → Bool) (l : List Char) :
    (l.dropWhile p).length ≤ l.length := by
  induction l with
  | nil => simp [List.dropWhile]
  | cons c cs ih =>
    by_cases h : p c
    · simp [List.dropWhile, h]; omega
    · simp [List.dropWhile, h]

/-- One step of the right fold implementing Python `str.split()`: the
accumulator carries the token currently being built and the finished
tokens to the right of the cursor. -/
def splitStep (c : Char) (acc : List Char × List (List Char)) :
    List Char × List (List Char) :=
  if isPyWs c then ([], if acc.1 = [] then acc.2 else acc.1 :: acc.2)
  else (c :: acc.1, acc.2)

/-- Embedding of Python `str.split()` (split on whitespace runs, dropping
empty pieces): returns the maximal whitespace-free tokens in order. -/
def pySplitList (cs : List Char) : List (List Char) :=
  let r := cs.foldr splitStep ([], [])
  if r.1 = [] then r.2 else r.1 :: r.2

/-- Embedding of Python `' '.join(tokens)`: interleave a single space. -/
def joinSp : List (List Char) → List Char
  | [] => []
  | [w] => w
  | w :: ws => w ++ ' ' :: joinSp ws

/-! ## LocationValidator (src/utils/validators.py) -/

/-- Characters admitted by `LocationValidator.ALLOWED_PATTERN`, the regex
class `[a-zA-Z0-9\s\-,\.]`: ASCII letters, digits, whitespace, hyphen,
comma and period. -/
def isAllowedChar (c : Char) : Bool :=
  ('a' ≤ c && c ≤ 'z') || ('A' ≤ c && c ≤ 'Z') || ('0' ≤ c && c ≤ '9')
    || isPyWs c || c = '-' || c = ',' || c = '.'

/-- Embedding of `LocationValidator.validate_location`: the guard
`not location or not location.strip()` is the blank test, then the trimmed
string is checked for length bounds 2 and 100 and for the character
whitelist, returning the pair `(is_valid, error_message)` of the source. -/
def validate_location (location : String) : Bool × Option String :=
  if pyStrip location = "" then (false, some "Location cannot be empty")
  else
    let loc := pyStrip location
    if loc.length < 2 then
      (false, some "Location must be at least 2 characters")
    else if loc.length > 100 then
      (false, some "Location must not exceed 100 characters")
    else if ! loc.data.all isAllowedChar then
      (false, some "Location contains invalid characters")
    else (true, none)

/-- The five characters removed by `sanitize_location`, regex `[<>\x27";]`:
less-than, greater-than, single quote, double quote, semicolon. -/
def isDangerous (c : Char) : Bool :=
  c = '<' || c = '>' || c = '\u0027' || c = '"' || c = ';'

/-- Embedding of `LocationValidator.sanitize_location`:
`' '.join(location.split())`, then removal of the dangerous characters,
then a final `strip()`. -/
def sanitize_location (location : String) : String :=
  String.mk (pyStripList
    ((joinSp (pySplitList location.data)).filter (fun c => ! isDangerous c)))


/-! ## List lemmas for the string primitives -/

theorem mem_of_mem_dropWhile {p : Char → Bool} {l : List Char} {c : Char}
    (h : c ∈ l.dropWhile p) : c ∈ l := by
  induction l with
  | nil => simp [List.dropWhile] at h
  | cons a t ih =>
    by_cases hp : p a
    · rw [List.dropWhile_cons, if_pos hp] at h
      exact List.mem_cons_of_mem _ (ih h)
    · rwa [List.dropWhile_cons, if_neg hp] at h

theorem of_mem_takeWhile {p : Char → Bool} {l : List Char} {c : Char}
    (h : c ∈ l.takeWhile p) : p c = true ∧ c ∈ l := by
  induction l with
  | nil => simp [List.takeWhile] at h
  | cons a t ih =>
    by_cases hp : p a
    · rw [List.takeWhile_cons, if_pos hp] at h
      rcases List.mem_cons.1 h with rfl | h
      · exact ⟨hp, List.mem_cons_self _ _⟩
      · exact ⟨(ih h).1, List.mem_cons_of_mem _ (ih h).2⟩
    · rw [List.takeWhile_cons, if_neg hp] at h
      simp at h

theorem takeWhile_eq_self_of_all {p : Char → Bool} {l : List Char}
    (h : ∀ c ∈ l, p c = true) : l.takeWhile p = l := by
  induction l with
  | nil => rfl
  | cons a t ih =>
    rw [List.takeWhile_cons, if_pos (h a (List.mem_cons_self _ _))]
    exact congrArg (a :: ·) (ih fun c hc => h c (List.mem_cons_of_mem _ hc))

theorem dropWhile_eq_nil_of_all {p : Char → Bool} {l : List Char}
    (h : ∀ c ∈ l, p c = true) : l.dropWhile p = [] := by
  induction l with
  | nil => rfl
  | cons a t ih =>
    rw [List.dropWhile_cons, if_pos (h a (List.mem_cons_self _ _))]
    exact ih fun c hc => h c (List.mem_cons_of_mem _ hc)

theorem takeWhile_append_stop {p : Char → Bool} {w t : List Char} {b : Char}
    (hw : ∀ c ∈ w, p c = true) (hb : p b = false) :
    (w ++ b :: t).takeWhile p = w := by
  induction w with
  | nil => simp [List.takeWhile_cons, hb]
  | cons a u ih =>
    rw [List.cons_append, List.takeWhile_cons,
      if_pos (hw a (List.mem_cons_self _ _))]
    exact congrArg (a :: ·) (ih fun c hc => hw c (List.mem_cons_of_mem _ hc))

theorem dropWhile_append_stop {p : Char → Bool} {w t : List Char} {b : Char}
    (hw : ∀ c ∈ w, p c = true) (hb : p b = false) :
    (w ++ b :: t).dropWhile p = b :: t := by
  induction w with
  | nil => simp [List.dropWhile_cons, hb]
  | cons a u ih =>
    rw [List.cons_append, List.dropWhile_cons,
      if_pos (hw a (List.mem_cons_self _ _))]
    exact ih fun c hc => hw c (List.mem_cons_of_mem _ hc)

theorem mem_of_mem_pyStripList {l : List Char} {c : Char}
    (h : c ∈ pyStripList l) : c ∈ l := by
  unfold pyStripList at h
  rw [List.mem_reverse] at h
  have h2 := mem_of_mem_dropWhile h
  rw [List.mem_reverse] at h2
  exact mem_of_mem_dropWhile h2

theorem pyStripList_length_le (l : List Char) :
    (pyStripList l).length ≤ l.length := by
  unfold pyStripList
  rw [List.length_reverse]
  calc ((l.dropWhile isPyWs).reverse.dropWhile isPyWs).length
      ≤ (l.dropWhile isPyWs).reverse.length := length_dropWhile_le _ _
    _ = (l.dropWhile isPyWs).length := List.length_reverse _
    _ ≤ l.length := length_dropWhile_le _ _

theorem pyStripList_eq_self {l : List Char}
    (h1 : ∃ c t, l = c :: t ∧ isPyWs c = false)
    (h2 : ∃ c t, l.reverse = c :: t ∧ isPyWs c = false) :
    pyStripList l = l := by
  obtain ⟨c, t, rfl, hc⟩ := h1
  obtain ⟨c2, t2, hrev, hc2⟩ := h2
  unfold pyStripList
  rw [List.dropWhile_cons, if_neg (by simp [hc]), hrev,
    List.dropWhile_cons, if_neg (by simp [hc2]), ← hrev, List.reverse_reverse]

/-- Fold characterization used for the token lemmas: the current token and
every finished token of the split accumulator are whitespace-free and drawn
from the input. -/
theorem pySplit_tokens_aux (cs : List Char) :
    (∀ c ∈ (cs.foldr splitStep ([], [])).1, isPyWs c = false ∧ c ∈ cs) ∧
    (∀ w ∈ (cs.foldr splitStep ([], [])).2,
      w ≠ [] ∧ ∀ c ∈ w, isPyWs c = false ∧ c ∈ cs) := by
  induction cs with
  | nil => exact ⟨by simp, by simp⟩
  | cons c cs ih =>
    rw [List.foldr_cons]
    obtain ⟨ih1, ih2⟩ := ih
    by_cases hc : isPyWs c
    · rw [splitStep, if_pos hc]
      refine ⟨by simp, ?_⟩
      intro w hw
      simp only at hw
      by_cases hcur : (cs.foldr splitStep ([], [])).1 = []
      · rw [if_pos hcur] at hw
        obtain ⟨hne, hall⟩ := ih2 w hw
        exact ⟨hne, fun d hd => ⟨(hall d hd).1, List.mem_cons_of_mem _ (hall d hd).2⟩⟩
      · rw [if_neg hcur] at hw
        rcases List.mem_cons.1 hw with rfl | hw
        · exact ⟨hcur, fun d hd => ⟨(ih1 d hd).1, List.mem_cons_of_mem _ (ih1 d hd).2⟩⟩
        · obtain ⟨hne, hall⟩ := ih2 w hw
          exact ⟨hne, fun d hd => ⟨(hall d hd).1, List.mem_cons_of_mem _ (hall d hd).2⟩⟩
    · rw [splitStep, if_neg hc]
      constructor
      · intro d hd
        rcases List.mem_cons.1 hd with rfl | hd
        · exact ⟨by simpa using hc, List.mem_cons_self _ _⟩
        · exact ⟨(ih1 d hd).1, List.mem_cons_of_mem _ (ih1 d hd).2⟩
      · intro w hw
        obtain ⟨hne, hall⟩ := ih2 w hw
        exact ⟨hne, fun d hd => ⟨(hall d hd).1, List.mem_cons_of_mem _ (hall d hd).2⟩⟩

/-- Every token produced by `pySplitList` is nonempty, whitespace-free, and
made of characters of the input. -/
theorem pySplit_tokens (cs : List Char) :
    ∀ w ∈ pySplitList cs, w ≠ [] ∧ ∀ c ∈ w, isPyWs c = false ∧ c ∈ cs := by
  intro w hw
  unfold pySplitList at hw
  simp only at hw
  obtain ⟨h1, h2⟩ := pySplit_tokens_aux cs
  by_cases hcur : (cs.foldr splitStep ([], [])).1 = []
  · rw [if_pos hcur] at hw
    exact h2 w hw
  · rw [if_neg hcur] at hw
    rcases List.mem_cons.1 hw with rfl | hw
    · exact ⟨hcur, h1⟩
    · exact h2 w hw

/-- Folding `splitStep` over a whitespace-free list prepends it to the
current token. -/
theorem foldr_splitStep_wsfree {w : List Char}
    (h : ∀ c ∈ w, isPyWs c = false) (acc : List Char × List (List Char)) :
    w.foldr splitStep acc = (w ++ acc.1, acc.2) := by
  induction w with
  | nil => rfl
  | cons c w' ih =>
    rw [List.foldr_cons, ih (fun d hd => h d (List.mem_cons_of_mem _ hd)),
      splitStep, if_neg (by simp [h c (List.mem_cons_self _ _)])]
    rfl

/-- Splitting the single-space join of nonempty whitespace-free tokens
recovers the tokens. -/
theorem pySplit_joinSp (toks : List (List Char))
    (h : ∀ w ∈ toks, w ≠ [] ∧ ∀ c ∈ w, isPyWs c = false) :
    pySplitList (joinSp toks) = toks := by
  induction toks with
  | nil => rfl
  | cons w ws ih =>
    obtain ⟨hne, hfree⟩ := h w (List.mem_cons_self _ _)
    cases ws with
    | nil =>
      show pySplitList w = [w]
      unfold pySplitList
      rw [foldr_splitStep_wsfree hfree ([], [])]
      simp only [List.append_nil]
      rw [if_neg hne]
    | cons v vs =>
      have hih := ih (fun u hu => h u (List.mem_cons_of_mem _ hu))
      simp only [pySplitList] at hih
      have h1 : List.foldr splitStep ([], []) (' ' :: joinSp (v :: vs)) =
          ([], v :: vs) := by
        rw [List.foldr_cons, splitStep, if_pos (by simp [isPyWs]), hih]
      have h2 : List.foldr splitStep ([], []) (w ++ ' ' :: joinSp (v :: vs)) =
          (w, v :: vs) := by
        rw [List.foldr_append, h1, foldr_splitStep_wsfree hfree]
        simp
      show pySplitList (w ++ ' ' :: joinSp (v :: vs)) = w :: v :: vs
      simp only [pySplitList]
      rw [h2]
      simp [hne]

theorem mem_joinSp {toks : List (List Char)} {c : Char}
    (h : c ∈ joinSp toks) : c = ' ' ∨ ∃ w ∈ toks, c ∈ w := by
  induction toks with
  | nil => simp [joinSp] at h
  | cons w ws ih =>
    cases ws with
    | nil => exact Or.inr ⟨w, List.mem_cons_self _ _, h⟩
    | cons v vs =>
      rcases List.mem_append.1 h with hw | hrest
      · exact Or.inr ⟨w, List.mem_cons_self _ _, hw⟩
      · rcases List.mem_cons.1 hrest with rfl | hmem
        · exact Or.inl rfl
        · rcases ih hmem with hsp | ⟨u, hu, hc⟩
          · exact Or.inl hsp
          · exact Or.inr ⟨u, List.mem_cons_of_mem _ hu, hc⟩

theorem joinSp_head {toks : List (List Char)}
    (h : ∀ w ∈ toks, w ≠ [] ∧ ∀ c ∈ w, isPyWs c = false) (hne : toks ≠ []) :
    ∃ c t, joinSp toks = c :: t ∧ isPyWs c = false := by
  cases toks with
  | nil => exact absurd rfl hne
  | cons w ws =>
    obtain ⟨hwne, hfree⟩ := h w (List.mem_cons_self _ _)
    obtain ⟨c, w', rfl⟩ : ∃ c w', w = c :: w' := by
      cases w with
      | nil => exact absurd rfl hwne
      | cons c w' => exact ⟨c, w', rfl⟩
    have hc := hfree c (List.mem_cons_self _ _)
    cases ws with
    | nil => exact ⟨c, w', rfl, hc⟩
    | cons v vs => exact ⟨c, w' ++ ' ' :: joinSp (v :: vs), rfl, hc⟩

theorem joinSp_reverse_head {toks : List (List Char)}
    (h : ∀ w ∈ toks, w ≠ [] ∧ ∀ c ∈ w, isPyWs c = false) (hne : toks ≠ []) :
    ∃ c t, (joinSp toks).reverse = c :: t ∧ isPyWs c = false := by
  induction toks with
  | nil => exact absurd rfl hne
  | cons w ws ih =>
    obtain ⟨hwne, hfree⟩ := h w (List.mem_cons_self _ _)
    cases ws with
    | nil =>
      obtain ⟨c, t, hrev⟩ : ∃ c t, w.reverse = c :: t := by
        cases hw : w.reverse with
        | nil => exact absurd (by simpa using hw) hwne
        | cons c t => exact ⟨c, t, rfl⟩
      have hcmem : c ∈ w := by
        rw [← List.mem_reverse, hrev]; exact List.mem_cons_self _ _
      exact ⟨c, t, hrev, hfree c hcmem⟩
    | cons v vs =>
      obtain ⟨c, t, hrev, hc⟩ :=
        ih (fun u hu => h u (List.mem_cons_of_mem _ hu)) (by simp)
      refine ⟨c, t ++ ' ' :: w.reverse, ?_, hc⟩
      show (w ++ ' ' :: joinSp (v :: vs)).reverse = _
      rw [List.reverse_append, List.reverse_cons, hrev]
      simp

/-! ## Claim C8: validate_location -/

/-- C8 counterexample input: one hundred letters followed by a space. -/
def longPadded : String := String.mk (List.replicate 100 'a' ++ [' '])

/-- C8 (counterexample): the claim says `validate_location` rejects every
string longer than 100 characters, but a 101-character string whose trailing
character is whitespace is accepted, because the length check is applied to
the trimmed string. -/
theorem validate_location_overlong_accepted :
    validate_location longPadded = (true, none) ∧ longPadded.length = 101 := by
  constructor
  · rfl
  · rfl

/-- C8 (amended): `validate_location` fails with the corresponding error
exactly when the input is blank after trimming, when the TRIMMED input has
length outside [2, 100], or when it contains a character outside the
whitelist; it succeeds for all other strings, and it does reject every raw
string shorter than 2 characters (the raw-length claim is only valid for the
lower bound). -/
theorem validate_location_characterization (s : String) :
    (pyStrip s = "" → validate_location s = (false, some "Location cannot be empty")) ∧
    (pyStrip s ≠ "" → (pyStrip s).length < 2 →
      validate_location s = (false, some "Location must be at least 2 characters")) ∧
    (2 ≤ (pyStrip s).length → 100 < (pyStrip s).length →
      validate_location s = (false, some "Location must not exceed 100 characters")) ∧
    (2 ≤ (pyStrip s).length → (pyStrip s).length ≤ 100 →
      (pyStrip s).data.all isAllowedChar = false →
      validate_location s = (false, some "Location contains invalid characters")) ∧
    (validate_location s = (true, none) ↔
      pyStrip s ≠ "" ∧ 2 ≤ (pyStrip s).length ∧ (pyStrip s).length ≤ 100 ∧
        (pyStrip s).data.all isAllowedChar = true) ∧
    (s.length < 2 → (validate_location s).1 = false) := by
  have hlen : (pyStrip s).length ≤ s.length := by
    show (pyStripList s.data).length ≤ s.data.length
    exact pyStripList_length_le s.data
  have hblank : pyStrip s = "" → (pyStrip s).length = 0 := by
    intro h; rw [h]; rfl
  unfold validate_location
  refine ⟨?_, ?_, ?_, ?_, ?_, ?_⟩
  · intro h; rw [if_pos h]
  · intro h hl
    rw [if_neg h, if_pos hl]
  · intro h2 h100
    rw [if_neg (fun hb => by have := hblank hb; omega), if_neg (by omega),
      if_pos (by omega)]
  · intro h2 h100 hbad
    rw [if_neg (fun hb => by have := hblank hb; omega), if_neg (by omega),
      if_neg (by omega), if_pos (by simp [hbad])]
  · constructor
    · intro h
      by_cases hb : pyStrip s = ""
      · rw [if_pos hb] at h; exact absurd h (by simp)
      rw [if_neg hb] at h
      by_cases hl : (pyStrip s).length < 2
      · rw [if_pos hl] at h; exact absurd h (by simp)
      rw [if_neg hl] at h
      by_cases hh : (pyStrip s).length > 100
      · rw [if_pos hh] at h; exact absurd h (by simp)
      rw [if_neg hh] at h
      by_cases ha : (pyStrip s).data.all isAllowedChar
      · exact ⟨hb, by omega, by omega, ha⟩
      · rw [if_pos (by simp [ha])] at h; exact absurd h (by simp)
    · rintro ⟨hb, h2, h100, hall⟩
      rw [if_neg hb, if_neg (by omega), if_neg (by omega), if_neg (by simp [hall])]
  · intro hs
    by_cases hb : pyStrip s = ""
    · rw [if_pos hb]
    · rw [if_neg hb, if_pos (by omega)]

/-- C8 witness: the amended characterization applied at concrete inputs,
discharging the hypotheses by evaluation. -/
theorem validate_location_characterization_witness :
    validate_location "Lagos" = (true, none) ∧
    validate_location " " = (false, some "Location cannot be empty") := by
  constructor
  · exact (validate_location_characterization "Lagos").2.2.2.2.1.mpr
      (by refine ⟨by decide, by decide, by decide, by decide⟩)
  · exact (validate_location_characterization " ").1 (by decide)

/-! ## Claim C9: sanitize_location -/

/-- C9 (counterexample): `sanitize_location` is not idempotent, because the
dangerous characters are removed only after whitespace runs are collapsed;
removing them can create a new internal whitespace run that a second
application collapses. -/
theorem sanitize_location_not_idempotent :
    sanitize_location (sanitize_location "a < > b") ≠ sanitize_location "a < > b" ∧
    sanitize_location "a < > b" = "a   b" ∧
    sanitize_location (sanitize_location "a < > b") = "a b" := by
  refine ⟨by decide, by decide, by decide⟩

/-- C9 (amended): the output of `sanitize_location` never contains any of the
characters removed by it, and `sanitize_location` is idempotent on every
input that contains none of those characters (the unrestricted idempotence
claimed by the spec fails, see the counterexample). -/
theorem sanitize_location_amended :
    (∀ s : String, ∀ c ∈ (sanitize_location s).data, isDangerous c = false) ∧
    (∀ s : String, (∀ c ∈ s.data, isDangerous c = false) →
      sanitize_location (sanitize_location s) = sanitize_location s) := by
  have hdata : ∀ l : List Char, (String.mk l).data = l := fun l => rfl
  have hmem_sanitize : ∀ (s : String) (c : Char), c ∈ (sanitize_location s).data →
      isDangerous c = false := by
    intro s c hc
    unfold sanitize_location at hc
    rw [hdata] at hc
    have h2 := mem_of_mem_pyStripList hc
    have := List.of_mem_filter h2
    simpa using this
  refine ⟨hmem_sanitize, ?_⟩
  intro s hclean
  have htoks := pySplit_tokens s.data
  have htoks' : ∀ w ∈ pySplitList s.data, w ≠ [] ∧ ∀ c ∈ w, isPyWs c = false :=
    fun w hw => ⟨(htoks w hw).1, fun c hc => ((htoks w hw).2 c hc).1⟩
  have hjclean : ∀ c ∈ joinSp (pySplitList s.data), isDangerous c = false := by
    intro c hc
    rcases mem_joinSp hc with rfl | ⟨w, hw, hcw⟩
    · decide
    · exact hclean c ((htoks w hw).2 c hcw).2
  have hfilter : (joinSp (pySplitList s.data)).filter (fun c => ! isDangerous c) =
      joinSp (pySplitList s.data) := by
    rw [List.filter_eq_self]
    intro a ha; simp [hjclean a ha]
  have hstrip : pyStripList (joinSp (pySplitList s.data)) =
      joinSp (pySplitList s.data) := by
    cases htl : pySplitList s.data with
    | nil => simp [joinSp, pyStripList, List.dropWhile]
    | cons w ws =>
      rw [← htl]
      exact pyStripList_eq_self
        (joinSp_head htoks' (by rw [htl]; simp))
        (joinSp_reverse_head htoks' (by rw [htl]; simp))
  have hsan : sanitize_location s = String.mk (joinSp (pySplitList s.data)) := by
    unfold sanitize_location
    rw [hfilter, hstrip]
  rw [hsan]
  unfold sanitize_location
  rw [hdata, pySplit_joinSp _ htoks', hfilter, hstrip]

/-- C9 witness: idempotence of `sanitize_location` on a concrete clean
input, via the amended theorem. -/
theorem sanitize_location_amended_witness :
    sanitize_location (sanitize_location "Lagos  Island") = sanitize_location "Lagos  Island" :=
  sanitize_location_amended.2 "Lagos  Island" (by decide)


/-! ## ASCII character kit

Python string methods (`lower`, `upper`, `title`) and the regex classes
`[a-z]`, `[A-Z]` act on the ASCII range in this repository; they are
embedded through the code points. -/

/-- ASCII lowercase test, the regex class `[a-z]` (code points 97..122). -/
def isAsciiLower (c : Char) : Bool := 97 ≤ c.toNat && c.toNat ≤ 122

/-- ASCII uppercase test, the regex class `[A-Z]` (code points 65..90). -/
def isAsciiUpper (c : Char) : Bool := 65 ≤ c.toNat && c.toNat ≤ 90

/-- ASCII letter test. -/
def isAsciiAlpha (c : Char) : Bool := isAsciiLower c || isAsciiUpper c

/-- Python `str.lower()` on one ASCII character. -/
def pyLowerChar (c : Char) : Char :=
  if isAsciiUpper c then Char.ofNat (c.toNat + 32) else c

/-- Python `str.upper()` on one ASCII character. -/
def pyUpperChar (c : Char) : Char :=
  if isAsciiLower c then Char.ofNat (c.toNat - 32) else c

theorem toNat_ofNat_valid {n : Nat} (h : n < 55296) : (Char.ofNat n).toNat = n := by
  rw [Char.ofNat, dif_pos (Or.inl h)]
  rfl

theorem char_eq_of_toNat_eq {c d : Char} (h : c.toNat = d.toNat) : c = d := by
  apply Char.ext
  exact UInt32.toNat.inj h

theorem isAsciiUpper_iff {c : Char} :
    isAsciiUpper c = true ↔ 65 ≤ c.toNat ∧ c.toNat ≤ 90 := by
  simp [isAsciiUpper]

theorem isAsciiLower_iff {c : Char} :
    isAsciiLower c = true ↔ 97 ≤ c.toNat ∧ c.toNat ≤ 122 := by
  simp [isAsciiLower]

theorem isPyWs_iff_toNat {c : Char} :
    isPyWs c = true ↔ c.toNat = 32 ∨ c.toNat = 9 ∨ c.toNat = 10 ∨
      c.toNat = 13 ∨ c.toNat = 11 ∨ c.toNat = 12 := by
  constructor
  · intro h
    simp only [isPyWs, Bool.or_eq_true, decide_eq_true_eq] at h
    rcases h with ((((h | h) | h) | h) | h) | h <;>
      rw [h] <;> simp
  · intro h
    rcases h with h | h | h | h | h | h
    · rw [char_eq_of_toNat_eq (show c.toNat = (' ' : Char).toNat from h)]; decide
    · rw [char_eq_of_toNat_eq (show c.toNat = ('\t' : Char).toNat from h)]; decide
    · rw [char_eq_of_toNat_eq (show c.toNat = ('\n' : Char).toNat from h)]; decide
    · rw [char_eq_of_toNat_eq (show c.toNat = ('\r' : Char).toNat from h)]; decide
    · rw [char_eq_of_toNat_eq (show c.toNat = ('\x0b' : Char).toNat from h)]; decide
    · rw [char_eq_of_toNat_eq (show c.toNat = ('\x0c' : Char).toNat from h)]; decide

theorem toNat_pyLowerChar_of_upper {c : Char} (h : isAsciiUpper c = true) :
    (pyLowerChar c).toNat = c.toNat + 32 := by
  obtain ⟨h1, h2⟩ := isAsciiUpper_iff.1 h
  rw [pyLowerChar, if_pos h, toNat_ofNat_valid (by omega)]

theorem pyLowerChar_of_not_upper {c : Char} (h : isAsciiUpper c = false) :
    pyLowerChar c = c := by
  rw [pyLowerChar, if_neg (by simp [h])]

theorem isAsciiLower_pyLowerChar_of_upper {c : Char} (h : isAsciiUpper c = true) :
    isAsciiLower (pyLowerChar c) = true := by
  obtain ⟨h1, h2⟩ := isAsciiUpper_iff.1 h
  rw [isAsciiLower_iff, toNat_pyLowerChar_of_upper h]
  omega

theorem not_upper_of_lower {c : Char} (h : isAsciiLower c = true) :
    isAsciiUpper c = false := by
  obtain ⟨h1, h2⟩ := isAsciiLower_iff.1 h
  rw [Bool.eq_false_iff]
  intro hu
  obtain ⟨h3, h4⟩ := isAsciiUpper_iff.1 hu
  omega

theorem isAsciiAlpha_pyLowerChar (c : Char) :
    isAsciiAlpha (pyLowerChar c) = isAsciiAlpha c := by
  by_cases h : isAsciiUpper c
  · have h1 := isAsciiLower_pyLowerChar_of_upper h
    simp [isAsciiAlpha, h1, h]
  · have h' : isAsciiUpper c = false := by simpa using h
    rw [pyLowerChar_of_not_upper (c := c) h']

theorem pyLowerChar_pyLowerChar (c : Char) :
    pyLowerChar (pyLowerChar c) = pyLowerChar c := by
  by_cases h : isAsciiUpper c
  · have hl := isAsciiLower_pyLowerChar_of_upper h
    exact pyLowerChar_of_not_upper (not_upper_of_lower hl)
  · have h' : isAsciiUpper c = false := by simpa using h
    rw [pyLowerChar_of_not_upper (c := c) h', pyLowerChar_of_not_upper (c := c) h']

theorem not_lower_of_upper {c : Char} (h : isAsciiUpper c = true) :
    isAsciiLower c = false := by
  obtain ⟨h1, h2⟩ := isAsciiUpper_iff.1 h
  rw [Bool.eq_false_iff]
  intro hu
  obtain ⟨h3, h4⟩ := isAsciiLower_iff.1 hu
  omega

theorem pyUpperChar_pyLowerChar (c : Char) :
    pyUpperChar (pyLowerChar c) = pyUpperChar c := by
  by_cases h : isAsciiUpper c
  · have hl := isAsciiLower_pyLowerChar_of_upper h
    have hn := toNat_pyLowerChar_of_upper h
    rw [pyUpperChar, if_pos hl, hn, Nat.add_sub_cancel, Char.ofNat_toNat,
      pyUpperChar, if_neg (by simp [not_lower_of_upper h])]
  · have h' : isAsciiUpper c = false := by simpa using h
    rw [pyLowerChar_of_not_upper (c := c) h']

theorem isPyWs_eq_false_of_alpha {c : Char} (h : isAsciiAlpha c = true) :
    isPyWs c = false := by
  rw [isAsciiAlpha, Bool.or_eq_true] at h
  rcases h with hl | hu
  · obtain ⟨h1, h2⟩ := isAsciiLower_iff.1 hl
    rw [Bool.eq_false_iff]
    intro hw
    rcases isPyWs_iff_toNat.1 hw with hn | hn | hn | hn | hn | hn <;> omega
  · obtain ⟨h1, h2⟩ := isAsciiUpper_iff.1 hu
    rw [Bool.eq_false_iff]
    intro hw
    rcases isPyWs_iff_toNat.1 hw with hn | hn | hn | hn | hn | hn <;> omega

theorem isPyWs_pyLowerChar (c : Char) : isPyWs (pyLowerChar c) = isPyWs c := by
  by_cases h : isAsciiUpper c
  · have h1 : isAsciiAlpha (pyLowerChar c) = true := by
      simp [isAsciiAlpha, isAsciiLower_pyLowerChar_of_upper h]
    have h2 : isAsciiAlpha c = true := by simp [isAsciiAlpha, h]
    rw [isPyWs_eq_false_of_alpha h1, isPyWs_eq_false_of_alpha h2]
  · have h' : isAsciiUpper c = false := by simpa using h
    rw [pyLowerChar_of_not_upper (c := c) h']

/-! ## MessageParser (src/utils/parsers.py) -/

/-- Embedding of `re.sub(r"\s+", " ", s)`: replace every maximal whitespace
run by a single space. -/
def collapseWs : List Char → List Char
  | [] => []
  | [c] => if isPyWs c then [' '] else [c]
  | c :: d :: rest =>
    if isPyWs c then
      (if isPyWs d then collapseWs (d :: rest) else ' ' :: collapseWs (d :: rest))
    else c :: collapseWs (d :: rest)

/-- Embedding of `re.sub(r"([a-z])([A-Z])", r"\1 \2", s)`: insert a space
between a lowercase letter immediately followed by an uppercase letter.
The regex engine consumes both characters of a match and resumes after
them; since the second character is uppercase it can never start a new
match, so the plain left-to-right scan below is equivalent. -/
def insertLowerUpper : List Char → List Char
  | [] => []
  | [c] => [c]
  | a :: b :: rest =>
    if isAsciiLower a && isAsciiUpper b then
      a :: ' ' :: insertLowerUpper (b :: rest)
    else a :: insertLowerUpper (b :: rest)

/-- Embedding of `re.sub(r"from([A-Z])", r"from \1", s, flags=re.IGNORECASE)`:
the IGNORECASE flag applies to the character class `[A-Z]` as well, so a
space is inserted between a case-insensitive occurrence of `from` and any
immediately following ASCII letter; the scan resumes after the whole
five-character match.  (The replacement text writes a literal lowercase
`from` where the match may have had other casing; the pipeline lower-cases
the entire message directly after this substitution, so keeping the
original four characters here yields the same lowered text.) -/
def insertFromUpper : List Char → List Char
  | f :: r :: o :: m :: u :: rest =>
    if (pyLowerChar f = 'f' && pyLowerChar r = 'r' && pyLowerChar o = 'o'
          && pyLowerChar m = 'm') && isAsciiAlpha u then
      f :: r :: o :: m :: ' ' :: u :: insertFromUpper rest
    else f :: insertFromUpper (r :: o :: m :: u :: rest)
  | c :: rest => c :: insertFromUpper rest
  | [] => []

/-- Python `str.lower()` on the ASCII text handled by the parser. -/
def pyLower (cs : List Char) : List Char := cs.map pyLowerChar

/-- State-passing core of Python `str.title()`: an alphabetic character is
uppercased after a non-alphabetic character (or at the start) and
lowercased after an alphabetic one. -/
def pyTitleAux : Bool → List Char → List Char
  | _, [] => []
  | prevAlpha, c :: rest =>
    if isAsciiAlpha c then
      (if prevAlpha then pyLowerChar c else pyUpperChar c) :: pyTitleAux true rest
    else c :: pyTitleAux false rest

/-- Python `str.title()`. -/
def pyTitle (cs : List Char) : List Char := pyTitleAux false cs

/-- Match a literal regex fragment, returning the remainder on success. -/
def afterLit : List Char → List Char → Option (List Char)
  | [], s => some s
  | _ :: _, [] => none
  | p :: ps, c :: cs => if c = p then afterLit ps cs else none

/-- Match the regex `\s+` greedily: require at least one whitespace
character and consume the whole run.  `parse_route_request` runs its
patterns on whitespace-collapsed text, where every run has exactly one
character, so the greedy match never needs to backtrack into the run. -/
def wsPlus : List Char → Option (List Char)
  | [] => none
  | c :: rest => if isPyWs c then some (rest.dropWhile isPyWs) else none

/-- Match the separator `\s+to\s+(.+)` of the direction patterns at the
current position, returning the final greedy group (which extends to the
end of the text, whence it must merely be nonempty). -/
def trySep (s : List Char) : Option (List Char) :=
  match wsPlus s with
  | none => none
  | some s1 =>
    match afterLit ['t', 'o'] s1 with
    | none => none
    | some s2 =>
      match wsPlus s2 with
      | none => none
      | some s3 => if s3 = [] then none else some s3

/-- Lazy group `(.+?)` followed by `\s+to\s+(.+)`: shortest nonempty first
group wins, exactly like the non-greedy regex engine. -/
def splitToAux : List Char → List Char → Option (List Char × List Char)
  | _, [] => none
  | acc, c :: rest =>
    match trySep rest with
    | some d => some (acc ++ [c], d)
    | none => splitToAux (acc ++ [c]) rest

/-- Match `(.+?)\s+to\s+(.+)` against the whole remaining text. -/
def splitTo (s : List Char) : Option (List Char × List Char) :=
  splitToAux [] s

/-- Match `from\s+(.+?)\s+to\s+(.+)` at the current position. -/
def matchFromTail (s : List Char) : Option (List Char × List Char) :=
  match afterLit ['f', 'r', 'o', 'm'] s with
  | none => none
  | some s1 =>
    match wsPlus s1 with
    | none => none
    | some s2 => splitTo s2

/-- Match `\s+from\s+(.+?)\s+to\s+(.+)` at the current position. -/
def matchWsFrom (s : List Char) : Option (List Char × List Char) :=
  match wsPlus s with
  | none => none
  | some s1 => matchFromTail s1

/-- Pattern `directions?\s+from\s+(.+?)\s+to\s+(.+)` at this position; the
greedy optional `s` is tried first and given up on failure, as in the
regex engine. -/
def matchP1At (s : List Char) : Option (List Char × List Char) :=
  match afterLit ['d', 'i', 'r', 'e', 'c', 't', 'i', 'o', 'n'] s with
  | none => none
  | some s1 =>
    match s1 with
    | 's' :: s2 =>
      (match matchWsFrom s2 with
       | some r => some r
       | none => matchWsFrom s1)
    | _ => matchWsFrom s1

/-- Pattern `route\s+from\s+(.+?)\s+to\s+(.+)` at this position. -/
def matchP2At (s : List Char) : Option (List Char × List Char) :=
  match afterLit ['r', 'o', 'u', 't', 'e'] s with
  | none => none
  | some s1 => matchWsFrom s1

/-- Pattern `how\s+to\s+get\s+from\s+(.+?)\s+to\s+(.+)` at this position. -/
def matchP3At (s : List Char) : Option (List Char × List Char) :=
  match afterLit ['h', 'o', 'w'] s with
  | none => none
  | some s1 =>
    match wsPlus s1 with
    | none => none
    | some s2 =>
      match afterLit ['t', 'o'] s2 with
      | none => none
      | some s3 =>
        match wsPlus s3 with
        | none => none
        | some s4 =>
          match afterLit ['g', 'e', 't'] s4 with
          | none => none
          | some s5 => matchWsFrom s5

/-- Pattern `navigate\s+from\s+(.+?)\s+to\s+(.+)` at this position. -/
def matchP4At (s : List Char) : Option (List Char × List Char) :=
  match afterLit ['n', 'a', 'v', 'i', 'g', 'a', 't', 'e'] s with
  | none => none
  | some s1 => matchWsFrom s1

/-- Pattern `from\s+(.+?)\s+to\s+(.+)` at this position. -/
def matchP5At (s : List Char) : Option (List Char × List Char) :=
  matchFromTail s

/-- Embedding of `re.search`: try the position matcher at every start
position from left to right, first success wins. -/
def searchAt (matchAt : List Char → Option (List Char × List Char)) :
    List Char → Option (List Char × List Char)
  | [] => matchAt []
  | c :: rest =>
    match matchAt (c :: rest) with
    | some r => some r
    | none => searchAt matchAt rest

/-- Try the five `DIRECTION_PATTERNS` in their source order, first match
wins. -/
def firstPattern (s : List Char) : Option (List Char × List Char) :=
  match searchAt matchP1At s with
  | some r => some r
  | none =>
    match searchAt matchP2At s with
    | some r => some r
    | none =>
      match searchAt matchP3At s with
      | some r => some r
      | none =>
        match searchAt matchP4At s with
        | some r => some r
        | none => searchAt matchP5At s

/-- Embedding of `MessageParser.parse_route_request`: the empty-message
guard, the three normalization substitutions, lower-casing with a final
strip, the ordered pattern match, and per-group strip plus title-casing
of the two captures. -/
def parse_route_request (message : String) : Option (String × String) :=
  if message = "" then none
  else
    match firstPattern (pyStripList (pyLower
        (insertFromUpper (insertLowerUpper
          (collapseWs (pyStripList message.data)))))) with
    | some (o, d) =>
      some (String.mk (pyTitle (pyStripList o)), String.mk (pyTitle (pyStripList d)))
    | none => none

/-- Keyword list of `MessageParser.is_route_request`. -/
def routeKeywords : List (List Char) :=
  [['d', 'i', 'r', 'e', 'c', 't', 'i', 'o', 'n'],
   ['r', 'o', 'u', 't', 'e'],
   ['n', 'a', 'v', 'i', 'g', 'a', 't', 'e'],
   ['f', 'r', 'o', 'm'],
   ['t', 'o'],
   ['h', 'o', 'w', ' ', 't', 'o', ' ', 'g', 'e', 't']]

/-- Substring test, Python `needle in haystack`. -/
def containsSub (needle : List Char) : List Char → Bool
  | [] => needle.isEmpty
  | c :: rest => needle.isPrefixOf (c :: rest) || containsSub needle rest

/-- Embedding of `MessageParser.is_route_request`: true when the lower-cased
message contains one of the keywords; empty message is rejected first. -/
def is_route_request (message : String) : Bool :=
  if message = "" then false
  else routeKeywords.any (fun kw => containsSub kw (pyLower message.data))

/-! ## Claim C7: parse_route_request counterexample -/

/-- C7 (counterexample): for the input `directions from NewYork to Boston`
the claim demands the pair (A title-cased, B title-cased), i.e.
`("Newyork", "Boston")`, but the normalization inserts a space inside the
origin before lower-casing, so the code returns `("New York", "Boston")`. -/
theorem parse_route_request_case_counterexample :
    parse_route_request "directions from NewYork to Boston" =
      some ("New York", "Boston") ∧
    parse_route_request "directions from NewYork to Boston" ≠
      some ("Newyork", "Boston") := by
  refine ⟨by decide, by decide⟩


/-! ## Window predicates: conditions under which the three normalization
substitutions of `parse_route_request` are the identity -/

/-- No lowercase letter immediately followed by an uppercase letter: under
this condition the substitution `([a-z])([A-Z])` inserts nothing. -/
def noCaseJoin : List Char → Bool
  | a :: b :: rest => (!(isAsciiLower a && isAsciiUpper b)) && noCaseJoin (b :: rest)
  | _ => true

/-- Admissibility of the first five-character window for `from([A-Z])`
under IGNORECASE (the class matches any ASCII letter). -/
def winFromOk : List Char → Bool
  | f :: r :: o :: m :: u :: _ =>
    !((pyLowerChar f = 'f' && pyLowerChar r = 'r' && pyLowerChar o = 'o'
        && pyLowerChar m = 'm') && isAsciiAlpha u)
  | _ => true

/-- No case-insensitive `from` immediately followed by an ASCII letter
anywhere: under this condition `from([A-Z])` with IGNORECASE inserts
nothing. -/
def fromUpperFree : List Char → Bool
  | f :: r :: o :: m :: u :: rest =>
    winFromOk (f :: r :: o :: m :: u :: rest) &&
      fromUpperFree (r :: o :: m :: u :: rest)
  | _ => true

/-- No two adjacent whitespace characters. -/
def noWsRun : List Char → Bool
  | a :: b :: rest => (!(isPyWs a && isPyWs b)) && noWsRun (b :: rest)
  | _ => true

/-- Every character an ASCII letter or a plain space. -/
def alphaOrSpace (s : List Char) : Bool :=
  s.all (fun c => isAsciiAlpha c || c = ' ')

theorem noCaseJoin_cc (a b : Char) (t : List Char) :
    noCaseJoin (a :: b :: t) =
      ((!(isAsciiLower a && isAsciiUpper b)) && noCaseJoin (b :: t)) := rfl

theorem noCaseJoin_of_cons {a : Char} {t : List Char}
    (h : noCaseJoin (a :: t) = true) : noCaseJoin t = true := by
  cases t with
  | nil => rfl
  | cons b t2 =>
    rw [noCaseJoin_cc, Bool.and_eq_true] at h
    exact h.2

theorem noCaseJoin_space_cons {ys : List Char} (hy : noCaseJoin ys = true) :
    noCaseJoin (' ' :: ys) = true := by
  cases ys with
  | nil => rfl
  | cons b t =>
    rw [noCaseJoin_cc, Bool.and_eq_true]
    have hsp : isAsciiLower ' ' = false := by decide
    exact ⟨by simp [hsp], hy⟩

theorem noCaseJoin_append_space {xs ys : List Char} (hx : noCaseJoin xs = true)
    (hy : noCaseJoin ys = true) : noCaseJoin (xs ++ ' ' :: ys) = true := by
  induction xs with
  | nil => exact noCaseJoin_space_cons hy
  | cons a xs' ih =>
    cases xs' with
    | nil =>
      show noCaseJoin (a :: ' ' :: ys) = true
      rw [noCaseJoin_cc, Bool.and_eq_true]
      have hsp : isAsciiUpper ' ' = false := by decide
      exact ⟨by simp [hsp], noCaseJoin_space_cons hy⟩
    | cons b xs2 =>
      rw [List.cons_append, List.cons_append, noCaseJoin_cc, Bool.and_eq_true]
      rw [noCaseJoin_cc, Bool.and_eq_true] at hx
      exact ⟨hx.1, by rw [← List.cons_append]; exact ih hx.2⟩

theorem noWsRun_cc (a b : Char) (t : List Char) :
    noWsRun (a :: b :: t) = ((!(isPyWs a && isPyWs b)) && noWsRun (b :: t)) := rfl

theorem noWsRun_of_cons {a : Char} {t : List Char}
    (h : noWsRun (a :: t) = true) : noWsRun t = true := by
  cases t with
  | nil => rfl
  | cons b t2 =>
    rw [noWsRun_cc, Bool.and_eq_true] at h
    exact h.2

theorem noWsRun_space_cons {ys : List Char} (hy : noWsRun ys = true)
    (hyh : ∀ b ∈ ys.head?, isPyWs b = false) : noWsRun (' ' :: ys) = true := by
  cases ys with
  | nil => rfl
  | cons b t =>
    rw [noWsRun_cc, Bool.and_eq_true]
    refine ⟨?_, hy⟩
    have := hyh b rfl
    simp [this]

theorem noWsRun_append_space {xs ys : List Char} (hx : noWsRun xs = true)
    (hy : noWsRun ys = true) (hxl : ∀ a ∈ xs.getLast?, isPyWs a = false)
    (hyh : ∀ b ∈ ys.head?, isPyWs b = false) :
    noWsRun (xs ++ ' ' :: ys) = true := by
  induction xs with
  | nil => exact noWsRun_space_cons hy hyh
  | cons a xs' ih =>
    cases xs' with
    | nil =>
      show noWsRun (a :: ' ' :: ys) = true
      rw [noWsRun_cc, Bool.and_eq_true]
      have ha := hxl a rfl
      exact ⟨by simp [ha], noWsRun_space_cons hy hyh⟩
    | cons b xs2 =>
      rw [List.cons_append, List.cons_append, noWsRun_cc, Bool.and_eq_true]
      rw [noWsRun_cc, Bool.and_eq_true] at hx
      refine ⟨hx.1, ?_⟩
      rw [← List.cons_append]
      exact ih hx.2 (by rwa [List.getLast?_cons_cons] at hxl)

theorem winFromOk_of_f {f : Char} {s : List Char} (h : ¬ pyLowerChar f = 'f') :
    winFromOk (f :: s) = true := by
  rcases s with _ | ⟨r, _ | ⟨o, _ | ⟨m, _ | ⟨u, t⟩⟩⟩⟩ <;> simp [winFromOk, h]

theorem winFromOk_of_r {f r : Char} {s : List Char} (h : ¬ pyLowerChar r = 'r') :
    winFromOk (f :: r :: s) = true := by
  rcases s with _ | ⟨o, _ | ⟨m, _ | ⟨u, t⟩⟩⟩ <;> simp [winFromOk, h]

theorem winFromOk_of_o {f r o : Char} {s : List Char} (h : ¬ pyLowerChar o = 'o') :
    winFromOk (f :: r :: o :: s) = true := by
  rcases s with _ | ⟨m, _ | ⟨u, t⟩⟩ <;> simp [winFromOk, h]

theorem winFromOk_of_m {f r o m : Char} {s : List Char} (h : ¬ pyLowerChar m = 'm') :
    winFromOk (f :: r :: o :: m :: s) = true := by
  rcases s with _ | ⟨u, t⟩ <;> simp [winFromOk, h]

theorem winFromOk_of_u {f r o m u : Char} {s : List Char}
    (h : isAsciiAlpha u = false) :
    winFromOk (f :: r :: o :: m :: u :: s) = true := by
  simp [winFromOk, h]

theorem fromUpperFree_cons (c : Char) (s : List Char) :
    fromUpperFree (c :: s) = (winFromOk (c :: s) && fromUpperFree s) := by
  rcases s with _ | ⟨a, _ | ⟨b, _ | ⟨d, _ | ⟨e, t⟩⟩⟩⟩ <;> rfl

theorem fromUpperFree_append_space {xs ys : List Char}
    (hx : fromUpperFree xs = true) (hy : fromUpperFree ys = true) :
    fromUpperFree (xs ++ ' ' :: ys) = true := by
  induction xs with
  | nil =>
    rw [List.nil_append, fromUpperFree_cons, Bool.and_eq_true]
    exact ⟨winFromOk_of_f (by decide), hy⟩
  | cons c xs' ih =>
    rw [fromUpperFree_cons, Bool.and_eq_true] at hx
    obtain ⟨hxw, hx'⟩ := hx
    rw [List.cons_append, fromUpperFree_cons, Bool.and_eq_true]
    refine ⟨?_, ih hx'⟩
    rcases xs' with _ | ⟨a, _ | ⟨b, _ | ⟨d, _ | ⟨e, t⟩⟩⟩⟩
    · exact winFromOk_of_r (by decide)
    · exact winFromOk_of_o (by decide)
    · exact winFromOk_of_m (by decide)
    · exact winFromOk_of_u (by decide)
    · exact hxw

theorem fromUpperFree_of_cons {c : Char} {s : List Char}
    (h : fromUpperFree (c :: s) = true) : fromUpperFree s = true := by
  rw [fromUpperFree_cons, Bool.and_eq_true] at h
  exact h.2

/-! ## Identity lemmas for the three normalization substitutions -/

theorem collapseWs_eq_self {s : List Char} (ha : alphaOrSpace s = true)
    (hr : noWsRun s = true) : collapseWs s = s := by
  induction s with
  | nil => rfl
  | cons c t ih =>
    rw [alphaOrSpace, List.all_cons, Bool.and_eq_true] at ha
    obtain ⟨hc, ht⟩ := ha
    by_cases hws : isPyWs c = true
    · have hc' : c = ' ' := by
        rcases Bool.or_eq_true .. ▸ hc with halpha | hsp
        · exact absurd hws (by simp [isPyWs_eq_false_of_alpha halpha])
        · simpa using hsp
      cases t with
      | nil =>
        subst hc'
        rfl
      | cons d t2 =>
        rw [noWsRun_cc, Bool.and_eq_true] at hr
        have hd : isPyWs d = false := by
          have := hr.1
          rw [hws] at this
          simpa using this
        show collapseWs (c :: d :: t2) = c :: d :: t2
        rw [collapseWs, if_pos hws, hd, if_neg (by simp), hc', ih ht hr.2]
    · cases t with
      | nil =>
        show collapseWs [c] = [c]
        rw [collapseWs, if_neg (by simpa using hws)]
      | cons d t2 =>
        show collapseWs (c :: d :: t2) = c :: d :: t2
        rw [collapseWs, if_neg (by simpa using hws),
          ih ht (noWsRun_of_cons hr)]

theorem insertLowerUpper_eq_self {s : List Char} (h : noCaseJoin s = true) :
    insertLowerUpper s = s := by
  induction s with
  | nil => rfl
  | cons a t ih =>
    cases t with
    | nil => rfl
    | cons b t2 =>
      rw [noCaseJoin_cc, Bool.and_eq_true] at h
      have h1 : (isAsciiLower a && isAsciiUpper b) = false := by
        have hx := h.1
        rwa [Bool.not_eq_true'] at hx
      show insertLowerUpper (a :: b :: t2) = a :: b :: t2
      rw [insertLowerUpper, if_neg (by simp [h1]), ih h.2]

theorem fromUpperFree_short {s : List Char} (h : s.length ≤ 4) :
    fromUpperFree s = true := by
  rcases s with _ | ⟨a, _ | ⟨b, _ | ⟨c, _ | ⟨d, _ | ⟨e, t⟩⟩⟩⟩⟩ <;>
    first
      | rfl
      | (exfalso; simp at h)

theorem insertFromUpper_eq_self {s : List Char} (h : fromUpperFree s = true) :
    insertFromUpper s = s := by
  induction s using insertFromUpper.induct with
  | case1 f r o m u rest hcond ih =>
    exfalso
    rw [fromUpperFree_cons, Bool.and_eq_true] at h
    have hw := h.1
    simp only [winFromOk] at hw
    rw [hcond] at hw
    simp at hw
  | case2 f r o m u rest hcond ih =>
    rw [insertFromUpper, if_neg (by simpa using hcond),
      ih (fromUpperFree_of_cons h)]
  | case3 c rest hshape ih =>
    rw [insertFromUpper, ih (fromUpperFree_of_cons h)]
    exact hshape
  | case4 => rfl


/-! ## Aggregate lemmas for space-joined words -/

/-- A word admissible in the amended parsing claim: nonempty, all ASCII
letters, no lowercase-uppercase adjacency, no case-insensitive `from`
followed by a letter (so no interior `from`: the IGNORECASE substitution
`from([A-Z])` would split such a word, e.g. `fromage` into `from age`). -/
def GoodWord (w : List Char) : Prop :=
  w ≠ [] ∧ w.all isAsciiAlpha = true ∧ noCaseJoin w = true ∧ fromUpperFree w = true

instance : DecidablePred GoodWord := fun w => by
  unfold GoodWord
  infer_instance

theorem mem_of_getLast? {l : List Char} {a : Char} (h : a ∈ l.getLast?) :
    a ∈ l := by
  induction l with
  | nil => simp at h
  | cons b t ih =>
    cases t with
    | nil =>
      simp at h
      simp [h]
    | cons c t2 =>
      rw [List.getLast?_cons_cons] at h
      exact List.mem_cons_of_mem _ (ih h)

theorem goodWord_wsfree {toks : List (List Char)}
    (h : ∀ w ∈ toks, GoodWord w) :
    ∀ w ∈ toks, w ≠ [] ∧ ∀ c ∈ w, isPyWs c = false := by
  intro w hw
  obtain ⟨hne, hall, _, _⟩ := h w hw
  refine ⟨hne, fun c hc => ?_⟩
  exact isPyWs_eq_false_of_alpha (by rw [List.all_eq_true] at hall; exact hall c hc)

theorem joinSp_alphaOrSpace {toks : List (List Char)}
    (h : ∀ w ∈ toks, GoodWord w) : alphaOrSpace (joinSp toks) = true := by
  induction toks with
  | nil => rfl
  | cons w ws ih =>
    have hall := (h w (List.mem_cons_self _ _)).2.1
    have hw : alphaOrSpace w = true := by
      rw [alphaOrSpace, List.all_eq_true]
      rw [List.all_eq_true] at hall
      intro c hc
      simp [hall c hc]
    cases ws with
    | nil => exact hw
    | cons v vs =>
      show alphaOrSpace (w ++ ' ' :: joinSp (v :: vs)) = true
      rw [alphaOrSpace, List.all_append, Bool.and_eq_true]
      refine ⟨hw, ?_⟩
      rw [List.all_cons, Bool.and_eq_true]
      exact ⟨by simp, ih (fun u hu => h u (List.mem_cons_of_mem _ hu))⟩

theorem joinSp_noCaseJoin {toks : List (List Char)}
    (h : ∀ w ∈ toks, GoodWord w) : noCaseJoin (joinSp toks) = true := by
  induction toks with
  | nil => rfl
  | cons w ws ih =>
    have hw := (h w (List.mem_cons_self _ _)).2.2.1
    cases ws with
    | nil => exact hw
    | cons v vs =>
      exact noCaseJoin_append_space hw
        (ih (fun u hu => h u (List.mem_cons_of_mem _ hu)))

theorem joinSp_fromUpperFree {toks : List (List Char)}
    (h : ∀ w ∈ toks, GoodWord w) : fromUpperFree (joinSp toks) = true := by
  induction toks with
  | nil => rfl
  | cons w ws ih =>
    have hw := (h w (List.mem_cons_self _ _)).2.2.2
    cases ws with
    | nil => exact hw
    | cons v vs =>
      exact fromUpperFree_append_space hw
        (ih (fun u hu => h u (List.mem_cons_of_mem _ hu)))

theorem noWsRun_of_wsfree {w : List Char} (h : ∀ c ∈ w, isPyWs c = false) :
    noWsRun w = true := by
  induction w with
  | nil => rfl
  | cons a s ih =>
    cases s with
    | nil => rfl
    | cons b t2 =>
      rw [noWsRun_cc, Bool.and_eq_true]
      refine ⟨by simp [h a (List.mem_cons_self _ _)], ?_⟩
      exact ih (fun c hc => h c (List.mem_cons_of_mem _ hc))

theorem joinSp_noWsRun {toks : List (List Char)}
    (h : ∀ w ∈ toks, GoodWord w) : noWsRun (joinSp toks) = true := by
  induction toks with
  | nil => rfl
  | cons w ws ih =>
    have hfree := goodWord_wsfree h
    have hw := noWsRun_of_wsfree (hfree w (List.mem_cons_self _ _)).2
    cases ws with
    | nil => exact hw
    | cons v vs =>
      have htail : ∀ u ∈ v :: vs, GoodWord u :=
        fun u hu => h u (List.mem_cons_of_mem _ hu)
      refine noWsRun_append_space hw (ih htail) ?_ ?_
      · intro a ha
        exact (hfree w (List.mem_cons_self _ _)).2 a (mem_of_getLast? ha)
      · intro b hb
        obtain ⟨c, s, heq, hc⟩ :=
          joinSp_head (goodWord_wsfree htail) (by simp)
        rw [heq] at hb
        simp at hb
        rw [← hb]
        exact hc


/-! ## Behavior of the lazy from-to matcher on space-joined words -/

theorem trySep_cons_nonws {c : Char} {s : List Char} (h : isPyWs c = false) :
    trySep (c :: s) = none := by
  simp [trySep, wsPlus, h]

theorem splitToAux_word {w : List Char} (hne : w ≠ [])
    (hfree : ∀ c ∈ w, isPyWs c = false) (acc s : List Char) :
    splitToAux acc (w ++ s) =
      (match trySep s with
       | some d => some (acc ++ w, d)
       | none => splitToAux (acc ++ w) s) := by
  induction w generalizing acc with
  | nil => exact absurd rfl hne
  | cons c w' ih =>
    cases w' with
    | nil => rfl
    | cons c2 w'' =>
      have h2 : isPyWs c2 = false := hfree c2 (by simp)
      show splitToAux acc (c :: ((c2 :: w'') ++ s)) = _
      rw [splitToAux]
      have hnone : trySep ((c2 :: w'') ++ s) = none := trySep_cons_nonws h2
      rw [hnone]
      have ihx := ih (by simp)
        (fun d hd => hfree d (List.mem_cons_of_mem _ hd)) (acc ++ [c])
      rw [ihx]
      have hacc : acc ++ [c] ++ (c2 :: w'') = acc ++ (c :: c2 :: w'') := by
        simp
      cases htr : trySep s with
      | some d => simp [hacc]
      | none => simp [hacc]

theorem dropWhile_cons_nonws {c : Char} {s : List Char} (h : isPyWs c = false) :
    (c :: s).dropWhile isPyWs = c :: s := by
  rw [List.dropWhile_cons, if_neg (by simp [h])]

theorem trySep_sep {B : List Char} (hBne : B ≠ [])
    (hBhead : ∀ c ∈ B.head?, isPyWs c = false) :
    trySep (' ' :: 't' :: 'o' :: ' ' :: B) = some B := by
  obtain ⟨c, s, rfl⟩ : ∃ c s, B = c :: s := by
    cases B with
    | nil => exact absurd rfl hBne
    | cons c s => exact ⟨c, s, rfl⟩
  have hc : isPyWs c = false := hBhead c rfl
  have h1 : isPyWs ' ' = true := by decide
  have h2 : isPyWs 't' = false := by decide
  simp [trySep, wsPlus, afterLit, h1, h2, hc, List.dropWhile_cons]

theorem trySep_space_word {v X : List Char} (hvne : v ≠ [])
    (hvfree : ∀ c ∈ v, isPyWs c = false) (hvto : v ≠ ['t', 'o']) :
    trySep (' ' :: (v ++ ' ' :: X)) = none := by
  obtain ⟨c, v', rfl⟩ : ∃ c v', v = c :: v' := by
    cases v with
    | nil => exact absurd rfl hvne
    | cons c v' => exact ⟨c, v', rfl⟩
  have hc : isPyWs c = false := hvfree c (by simp)
  have h1 : isPyWs ' ' = true := by decide
  by_cases hct : c = 't'
  · subst hct
    cases v' with
    | nil =>
      simp [trySep, wsPlus, afterLit, h1, hc, List.dropWhile_cons]
    | cons c2 v'' =>
      by_cases hc2 : c2 = 'o'
      · subst hc2
        cases v'' with
        | nil => exact absurd rfl hvto
        | cons c3 v3 =>
          have h3 : isPyWs c3 = false := hvfree c3 (by simp)
          simp [trySep, wsPlus, afterLit, h1, hc, h3, List.dropWhile_cons]
      · simp [trySep, wsPlus, afterLit, h1, hc, hc2, List.dropWhile_cons]
  · simp [trySep, wsPlus, afterLit, h1, hc, hct, List.dropWhile_cons]

theorem splitToAux_words (Aw : List (List Char)) (B : List Char)
    (acc : List Char) (hA : Aw ≠ [])
    (hgood : ∀ w ∈ Aw, w ≠ [] ∧ ∀ c ∈ w, isPyWs c = false)
    (hto : ∀ w ∈ Aw, w ≠ ['t', 'o'])
    (hBne : B ≠ []) (hBhead : ∀ c ∈ B.head?, isPyWs c = false) :
    splitToAux acc (joinSp Aw ++ ' ' :: 't' :: 'o' :: ' ' :: B) =
      some (acc ++ joinSp Aw, B) := by
  induction Aw generalizing acc with
  | nil => exact absurd rfl hA
  | cons w ws ih =>
    obtain ⟨hwne, hwfree⟩ := hgood w (List.mem_cons_self _ _)
    cases ws with
    | nil =>
      show splitToAux acc (w ++ ' ' :: 't' :: 'o' :: ' ' :: B) = _
      rw [splitToAux_word hwne hwfree, trySep_sep hBne hBhead]
      rfl
    | cons v vs =>
      have hgood' : ∀ u ∈ v :: vs, u ≠ [] ∧ ∀ c ∈ u, isPyWs c = false :=
        fun u hu => hgood u (List.mem_cons_of_mem _ hu)
      obtain ⟨hvne, hvfree⟩ := hgood' v (List.mem_cons_self _ _)
      have hJv : ∃ X, joinSp (v :: vs) ++ ' ' :: 't' :: 'o' :: ' ' :: B =
          v ++ ' ' :: X := by
        cases vs with
        | nil => exact ⟨'t' :: 'o' :: ' ' :: B, rfl⟩
        | cons v2 vs2 =>
          refine ⟨joinSp (v2 :: vs2) ++ ' ' :: 't' :: 'o' :: ' ' :: B, ?_⟩
          show (v ++ ' ' :: joinSp (v2 :: vs2)) ++ _ = _
          simp
      obtain ⟨X, hX⟩ := hJv
      show splitToAux acc
        ((w ++ ' ' :: joinSp (v :: vs)) ++ ' ' :: 't' :: 'o' :: ' ' :: B) = _
      have hshape : (w ++ ' ' :: joinSp (v :: vs)) ++ ' ' :: 't' :: 'o' :: ' ' :: B =
          w ++ ' ' :: (joinSp (v :: vs) ++ ' ' :: 't' :: 'o' :: ' ' :: B) := by
        simp
      rw [hshape, splitToAux_word hwne hwfree]
      rw [show trySep (' ' :: (joinSp (v :: vs) ++ ' ' :: 't' :: 'o' :: ' ' :: B)) =
          none by
        rw [hX]
        exact trySep_space_word hvne hvfree (hto v (List.mem_cons_of_mem _ (List.mem_cons_self _ _)))]
      show splitToAux (acc ++ w)
        (' ' :: (joinSp (v :: vs) ++ ' ' :: 't' :: 'o' :: ' ' :: B)) = _
      rw [splitToAux]
      obtain ⟨c, s, hJeq, hc⟩ := joinSp_head hgood' (by simp)
      rw [show trySep (joinSp (v :: vs) ++ ' ' :: 't' :: 'o' :: ' ' :: B) =
          none by
        rw [hJeq, List.cons_append]
        exact trySep_cons_nonws hc]
      have ihx := ih (acc ++ w ++ [' ']) (by simp) hgood'
        (fun u hu => hto u (List.mem_cons_of_mem _ hu))
      rw [ihx]
      show some (acc ++ w ++ [' '] ++ joinSp (v :: vs), B) = _
      rw [show acc ++ w ++ [' '] ++ joinSp (v :: vs) =
          acc ++ (w ++ ' ' :: joinSp (v :: vs)) by simp]
      rfl


/-! ## Remaining pipeline lemmas for the amended parsing claim -/

theorem pyTitleAux_pyLower (s : List Char) : ∀ b,
    pyTitleAux b (List.map pyLowerChar s) = pyTitleAux b s := by
  induction s with
  | nil => intro b; rfl
  | cons c rest ih =>
    intro b
    rw [List.map_cons]
    rw [pyTitleAux, pyTitleAux, isAsciiAlpha_pyLowerChar]
    by_cases ha : isAsciiAlpha c = true
    · rw [if_pos ha, if_pos ha, pyLowerChar_pyLowerChar,
        pyUpperChar_pyLowerChar, ih true]
    · rw [if_neg (by simp [ha]), if_neg (by simp [ha]), ih false,
        pyLowerChar_of_not_upper]
      rw [Bool.eq_false_iff]
      intro hu
      exact ha (by simp [isAsciiAlpha, hu])

theorem pyTitle_pyLower (s : List Char) :
    pyTitle (List.map pyLowerChar s) = pyTitle s :=
  pyTitleAux_pyLower s false

theorem pyLower_joinSp (toks : List (List Char)) :
    pyLower (joinSp toks) = joinSp (toks.map (List.map pyLowerChar)) := by
  induction toks with
  | nil => rfl
  | cons w ws ih =>
    cases ws with
    | nil => rfl
    | cons v vs =>
      show List.map pyLowerChar (w ++ ' ' :: joinSp (v :: vs)) = _
      rw [List.map_append, List.map_cons]
      rw [show pyLowerChar ' ' = ' ' from by decide]
      rw [show List.map pyLowerChar (joinSp (v :: vs)) = pyLower (joinSp (v :: vs)) from rfl,
        ih]
      rfl

theorem getLast?_of_reverse {l : List Char} {c : Char} {s : List Char}
    (h : l.reverse = c :: s) : l.getLast? = some c := by
  have hl : l = s.reverse ++ [c] := by
    have := congrArg List.reverse h
    rwa [List.reverse_reverse, List.reverse_cons] at this
  rw [hl, List.getLast?_concat]

theorem searchAt_of_match {f : List Char → Option (List Char × List Char)}
    {s : List Char} {r : List Char × List Char} (h : f s = some r) :
    searchAt f s = some r := by
  cases s with
  | nil => rw [searchAt, h]
  | cons c rest => rw [searchAt, h]

theorem firstPattern_of_p1 {s : List Char} {r : List Char × List Char}
    (h : searchAt matchP1At s = some r) : firstPattern s = some r := by
  rw [firstPattern, h]

/-- The frame of the amended claim: the concrete message
`directions from A to B` as a character list. -/
def directionsMsg (A B : List Char) : List Char :=
  ['d', 'i', 'r', 'e', 'c', 't', 'i', 'o', 'n', 's', ' ',
   'f', 'r', 'o', 'm', ' '] ++ (A ++ (' ' :: 't' :: 'o' :: ' ' :: B))

theorem pyLower_directionsMsg (A B : List Char) :
    pyLower (directionsMsg A B) =
      directionsMsg (pyLower A) (pyLower B) := by
  show List.map pyLowerChar _ = _
  unfold directionsMsg
  rw [List.map_append, List.map_append,
    show List.map pyLowerChar
      ['d', 'i', 'r', 'e', 'c', 't', 'i', 'o', 'n', 's', ' ',
       'f', 'r', 'o', 'm', ' '] =
      ['d', 'i', 'r', 'e', 'c', 't', 'i', 'o', 'n', 's', ' ',
       'f', 'r', 'o', 'm', ' '] from by decide,
    List.map_cons, List.map_cons, List.map_cons, List.map_cons,
    show pyLowerChar ' ' = ' ' from by decide,
    show pyLowerChar 't' = 't' from by decide,
    show pyLowerChar 'o' = 'o' from by decide]
  rfl

theorem matchP1At_direct {A B : List Char} (c0 : Char) (tA : List Char)
    (hA : A = c0 :: tA) (hc0 : isPyWs c0 = false)
    (hsplit : splitTo (A ++ ' ' :: 't' :: 'o' :: ' ' :: B) = some (A, B)) :
    matchP1At (directionsMsg A B) = some (A, B) := by
  have hdrop : (A ++ ' ' :: 't' :: 'o' :: ' ' :: B).dropWhile isPyWs =
      A ++ ' ' :: 't' :: 'o' :: ' ' :: B := by
    rw [hA, List.cons_append]
    exact dropWhile_cons_nonws hc0
  show (match splitTo ((A ++ ' ' :: 't' :: 'o' :: ' ' :: B).dropWhile isPyWs) with
        | some r => some r
        | none => matchWsFrom ('s' :: ' ' :: 'f' :: 'r' :: 'o' :: 'm' :: ' ' ::
            (A ++ ' ' :: 't' :: 'o' :: ' ' :: B))) = some (A, B)
  rw [hdrop, hsplit]


theorem reverse_append_head (xs : List Char) {ys : List Char} {c : Char}
    {t : List Char} (h : ys.reverse = c :: t) :
    ∃ t2, (xs ++ ys).reverse = c :: t2 :=
  ⟨t ++ xs.reverse, by rw [List.reverse_append, h]; rfl⟩

/-- C7 (amended): for every message `directions from A to B` in which the
origin `A` and destination `B` are nonempty sequences of single-space
separated nonempty ASCII-letter words, no word contains a lowercase letter
immediately followed by an uppercase one, no word contains a
case-insensitive `from` immediately followed by a letter, and no word of
the origin lower-cases to `to`, `parse_route_request` returns the pair
(A title-cased, B title-cased).  (The unrestricted claim over all casings
fails, see the counterexample: normalization inserts a space inside a
camel-case word before title-casing; likewise the IGNORECASE `from([A-Z])`
substitution splits any word with an interior `from`, such as `fromage`.) -/
theorem parse_route_request_amended (Aw Bw : List (List Char))
    (hAne : Aw ≠ []) (hBne : Bw ≠ [])
    (hgood : ∀ w ∈ Aw ++ Bw, GoodWord w)
    (hto : ∀ w ∈ Aw, pyLower w ≠ ['t', 'o']) :
    parse_route_request (String.mk (directionsMsg (joinSp Aw) (joinSp Bw))) =
      some (String.mk (pyTitle (joinSp Aw)), String.mk (pyTitle (joinSp Bw))) := by
  have hgA : ∀ w ∈ Aw, GoodWord w := fun w hw => hgood w (List.mem_append_left _ hw)
  have hgB : ∀ w ∈ Bw, GoodWord w := fun w hw => hgood w (List.mem_append_right _ hw)
  have hAfree := goodWord_wsfree hgA
  have hBfree := goodWord_wsfree hgB
  obtain ⟨a0, tA, hAeq, ha0⟩ := joinSp_head hAfree hAne
  obtain ⟨b0, tB, hBeq, hb0⟩ := joinSp_head hBfree hBne
  obtain ⟨ar, tAr, hArev, har⟩ := joinSp_reverse_head hAfree hAne
  obtain ⟨br, tBr, hBrev, hbr⟩ := joinSp_reverse_head hBfree hBne
  have hBheadq : ∀ x ∈ (joinSp Bw).head?, isPyWs x = false := by
    intro x hx
    rw [hBeq] at hx
    simp at hx
    subst hx
    exact hb0
  have hAheadq : ∀ x ∈ (joinSp Aw).head?, isPyWs x = false := by
    intro x hx
    rw [hAeq] at hx
    simp at hx
    subst hx
    exact ha0
  have hAlastq : ∀ x ∈ (joinSp Aw).getLast?, isPyWs x = false := by
    intro x hx
    rw [getLast?_of_reverse hArev] at hx
    simp at hx
    subst hx
    exact har
  -- the raw message is unchanged by all the normalization substitutions
  have hne : (String.mk (directionsMsg (joinSp Aw) (joinSp Bw)) : String) ≠ "" := by
    intro h
    have := congrArg String.data h
    simp [directionsMsg] at this
  have hsep_rev : (' ' :: 't' :: 'o' :: ' ' :: joinSp Bw).reverse =
      br :: (tBr ++ [' ', 'o', 't', ' ']) := by
    rw [show (' ' :: 't' :: 'o' :: ' ' :: joinSp Bw) =
        [' ', 't', 'o', ' '] ++ joinSp Bw from rfl, List.reverse_append, hBrev]
    rfl
  obtain ⟨t2, hrev2⟩ := reverse_append_head (joinSp Aw) hsep_rev
  obtain ⟨t3, hrev3⟩ := reverse_append_head
    ['d', 'i', 'r', 'e', 'c', 't', 'i', 'o', 'n', 's', ' ',
       'f', 'r', 'o', 'm', ' '] hrev2
  have hstrip1 : pyStripList (directionsMsg (joinSp Aw) (joinSp Bw)) =
      directionsMsg (joinSp Aw) (joinSp Bw) :=
    pyStripList_eq_self ⟨'d', _, rfl, by decide⟩ ⟨br, t3, hrev3, hbr⟩
  have haos : alphaOrSpace (directionsMsg (joinSp Aw) (joinSp Bw)) = true := by
    show ((['d', 'i', 'r', 'e', 'c', 't', 'i', 'o', 'n', 's', ' ',
       'f', 'r', 'o', 'm', ' '] : List Char) ++
        (joinSp Aw ++ ([' ', 't', 'o', ' '] ++ joinSp Bw))).all _ = true
    rw [List.all_append, List.all_append, List.all_append]
    rw [show ((['d', 'i', 'r', 'e', 'c', 't', 'i', 'o', 'n', 's', ' ',
       'f', 'r', 'o', 'm', ' '] : List Char).all
        (fun c => isAsciiAlpha c || c = ' ')) = true from by decide]
    rw [show (([' ', 't', 'o', ' '] : List Char).all
        (fun c => isAsciiAlpha c || c = ' ')) = true from by decide]
    have h1 := joinSp_alphaOrSpace hgA
    have h2 := joinSp_alphaOrSpace hgB
    rw [alphaOrSpace] at h1 h2
    rw [h1, h2]
    rfl
  have hToB : noWsRun (['t', 'o'] ++ ' ' :: joinSp Bw) = true :=
    noWsRun_append_space (by decide) (joinSp_noWsRun hgB) (by decide) hBheadq
  have hAToB : noWsRun (joinSp Aw ++ ' ' :: (['t', 'o'] ++ ' ' :: joinSp Bw)) = true :=
    noWsRun_append_space (joinSp_noWsRun hgA) hToB hAlastq
      (by
        intro x hx
        simp at hx
        subst hx
        decide)
  have hnw : noWsRun (directionsMsg (joinSp Aw) (joinSp Bw)) = true := by
    have hfull : noWsRun
        ((['d', 'i', 'r', 'e', 'c', 't', 'i', 'o', 'n', 's', ' ', 'f', 'r', 'o', 'm'] :
          List Char) ++
          ' ' :: (joinSp Aw ++ ' ' :: (['t', 'o'] ++ ' ' :: joinSp Bw))) = true :=
      noWsRun_append_space (by decide) hAToB (by decide)
      (by
        intro x hx
        rw [show (joinSp Aw ++ ' ' :: (['t', 'o'] ++ ' ' :: joinSp Bw)).head? =
            (joinSp Aw ++ ' ' :: (['t', 'o'] ++ ' ' :: joinSp Bw)).head? from rfl] at hx
        rw [hAeq] at hx
        simp at hx
        subst hx
        exact ha0)
    exact hfull
  have hToBc : noCaseJoin (['t', 'o'] ++ ' ' :: joinSp Bw) = true :=
    noCaseJoin_append_space (by decide) (joinSp_noCaseJoin hgB)
  have hAToBc : noCaseJoin (joinSp Aw ++ ' ' :: (['t', 'o'] ++ ' ' :: joinSp Bw)) = true :=
    noCaseJoin_append_space (joinSp_noCaseJoin hgA) hToBc
  have hncj : noCaseJoin (directionsMsg (joinSp Aw) (joinSp Bw)) = true := by
    have hfull : noCaseJoin
        ((['d', 'i', 'r', 'e', 'c', 't', 'i', 'o', 'n', 's', ' ', 'f', 'r', 'o', 'm'] :
          List Char) ++
          ' ' :: (joinSp Aw ++ ' ' :: (['t', 'o'] ++ ' ' :: joinSp Bw))) = true :=
      noCaseJoin_append_space (by decide) hAToBc
    exact hfull
  have hToBf : fromUpperFree (['t', 'o'] ++ ' ' :: joinSp Bw) = true :=
    fromUpperFree_append_space (by decide) (joinSp_fromUpperFree hgB)
  have hAToBf : fromUpperFree (joinSp Aw ++ ' ' :: (['t', 'o'] ++ ' ' :: joinSp Bw)) = true :=
    fromUpperFree_append_space (joinSp_fromUpperFree hgA) hToBf
  have hfuf : fromUpperFree (directionsMsg (joinSp Aw) (joinSp Bw)) = true := by
    have hfull : fromUpperFree
        ((['d', 'i', 'r', 'e', 'c', 't', 'i', 'o', 'n', 's', ' ', 'f', 'r', 'o', 'm'] :
          List Char) ++
          ' ' :: (joinSp Aw ++ ' ' :: (['t', 'o'] ++ ' ' :: joinSp Bw))) = true :=
      fromUpperFree_append_space (by decide) hAToBf
    exact hfull
  have hcoll := collapseWs_eq_self haos hnw
  have hilu := insertLowerUpper_eq_self hncj
  have hifu := insertFromUpper_eq_self hfuf
  -- the lowered message
  have hlow := pyLower_directionsMsg (joinSp Aw) (joinSp Bw)
  have hBrev' : (pyLower (joinSp Bw)).reverse =
      pyLowerChar br :: List.map pyLowerChar tBr := by
    show (List.map pyLowerChar (joinSp Bw)).reverse = _
    rw [← List.map_reverse, hBrev]
    rfl
  have hArev' : (pyLower (joinSp Aw)).reverse =
      pyLowerChar ar :: List.map pyLowerChar tAr := by
    show (List.map pyLowerChar (joinSp Aw)).reverse = _
    rw [← List.map_reverse, hArev]
    rfl
  have hsep_rev' : (' ' :: 't' :: 'o' :: ' ' :: pyLower (joinSp Bw)).reverse =
      pyLowerChar br :: (List.map pyLowerChar tBr ++ [' ', 'o', 't', ' ']) := by
    rw [show (' ' :: 't' :: 'o' :: ' ' :: pyLower (joinSp Bw)) =
        [' ', 't', 'o', ' '] ++ pyLower (joinSp Bw) from rfl,
      List.reverse_append, hBrev']
    rfl
  obtain ⟨u2, hrev2'⟩ := reverse_append_head (pyLower (joinSp Aw)) hsep_rev'
  obtain ⟨u3, hrev3'⟩ := reverse_append_head
    ['d', 'i', 'r', 'e', 'c', 't', 'i', 'o', 'n', 's', ' ',
       'f', 'r', 'o', 'm', ' '] hrev2'
  have hbr' : isPyWs (pyLowerChar br) = false := by
    rw [isPyWs_pyLowerChar]
    exact hbr
  have hstrip2 : pyStripList (directionsMsg (pyLower (joinSp Aw)) (pyLower (joinSp Bw))) =
      directionsMsg (pyLower (joinSp Aw)) (pyLower (joinSp Bw)) :=
    pyStripList_eq_self ⟨'d', _, rfl, by decide⟩ ⟨pyLowerChar br, u3, hrev3', hbr'⟩
  -- the pattern match on the lowered message
  have hsplit : splitTo (pyLower (joinSp Aw) ++ ' ' :: 't' :: 'o' :: ' ' ::
      pyLower (joinSp Bw)) = some (pyLower (joinSp Aw), pyLower (joinSp Bw)) := by
    rw [show pyLower (joinSp Aw) = joinSp (Aw.map (List.map pyLowerChar)) from
      pyLower_joinSp Aw]
    rw [splitTo, splitToAux_words (Aw.map (List.map pyLowerChar)) _ []
      (by simpa using hAne)
      (by
        intro w hw
        rw [List.mem_map] at hw
        obtain ⟨w0, hw0, rfl⟩ := hw
        obtain ⟨hne0, hfree0⟩ := hAfree w0 hw0
        refine ⟨by simpa using hne0, ?_⟩
        intro c hc
        rw [List.mem_map] at hc
        obtain ⟨c0, hc0, rfl⟩ := hc
        rw [isPyWs_pyLowerChar]
        exact hfree0 c0 hc0)
      (by
        intro w hw
        rw [List.mem_map] at hw
        obtain ⟨w0, hw0, rfl⟩ := hw
        exact hto w0 hw0)
      (by rw [hBeq]; simp [pyLower])
      (by
        intro x hx
        rw [show pyLower (joinSp Bw) = List.map pyLowerChar (joinSp Bw) from rfl,
          hBeq] at hx
        simp at hx
        subst hx
        rw [isPyWs_pyLowerChar]
        exact hb0)]
    rw [List.nil_append]
  have hmatch : matchP1At (directionsMsg (pyLower (joinSp Aw)) (pyLower (joinSp Bw))) =
      some (pyLower (joinSp Aw), pyLower (joinSp Bw)) := by
    refine matchP1At_direct (pyLowerChar a0)
      (List.map pyLowerChar tA) ?_ ?_ hsplit
    · rw [show pyLower (joinSp Aw) = List.map pyLowerChar (joinSp Aw) from rfl, hAeq]
      rfl
    · rw [isPyWs_pyLowerChar]
      exact ha0
  have hfp := firstPattern_of_p1 (searchAt_of_match hmatch)
  -- final strips and title-casing of the captured groups
  have hstripA : pyStripList (pyLower (joinSp Aw)) = pyLower (joinSp Aw) := by
    refine pyStripList_eq_self ⟨pyLowerChar a0, List.map pyLowerChar tA, ?_, ?_⟩
      ⟨pyLowerChar ar, List.map pyLowerChar tAr, hArev', ?_⟩
    · rw [show pyLower (joinSp Aw) = List.map pyLowerChar (joinSp Aw) from rfl, hAeq]
      rfl
    · rw [isPyWs_pyLowerChar]; exact ha0
    · rw [isPyWs_pyLowerChar]; exact har
  have hstripB : pyStripList (pyLower (joinSp Bw)) = pyLower (joinSp Bw) := by
    refine pyStripList_eq_self ⟨pyLowerChar b0, List.map pyLowerChar tB, ?_, ?_⟩
      ⟨pyLowerChar br, List.map pyLowerChar tBr, hBrev', hbr'⟩
    · rw [show pyLower (joinSp Bw) = List.map pyLowerChar (joinSp Bw) from rfl, hBeq]
      rfl
    · rw [isPyWs_pyLowerChar]; exact hb0
  -- assemble
  unfold parse_route_request
  rw [if_neg hne]
  rw [show (String.mk (directionsMsg (joinSp Aw) (joinSp Bw))).data =
      directionsMsg (joinSp Aw) (joinSp Bw) from rfl]
  rw [hstrip1, hcoll, hilu, hifu, hlow, hstrip2, hfp]
  show some (String.mk (pyTitle (pyStripList (pyLower (joinSp Aw)))),
      String.mk (pyTitle (pyStripList (pyLower (joinSp Bw))))) = _
  rw [hstripA, hstripB,
    show pyLower (joinSp Aw) = List.map pyLowerChar (joinSp Aw) from rfl,
    show pyLower (joinSp Bw) = List.map pyLowerChar (joinSp Bw) from rfl,
    pyTitle_pyLower, pyTitle_pyLower]


/-- C7 witness: the amended theorem applied to the words `Lagos` / `Abuja`,
with every hypothesis discharged by evaluation. -/
theorem parse_route_request_amended_witness :
    parse_route_request "directions from Lagos to Abuja" =
      some ("Lagos", "Abuja") :=
  parse_route_request_amended
    [['L', 'a', 'g', 'o', 's']] [['A', 'b', 'u', 'j', 'a']]
    (by decide) (by decide) (by decide) (by decide)


/-! ## Data model (src/models/schemas.py)

Floats are modelled as rationals. -/

/-- Geocoded location, the pydantic model `Location`. -/
structure Location where
  name : String
  latitude : ℚ
  longitude : ℚ
  display_name : Option String
deriving DecidableEq, Repr

/-- Route calculation result, the pydantic model `RouteInfo`. -/
structure RouteInfo where
  origin : Location
  destination : Location
  distance_km : ℚ
  duration_minutes : ℚ
  map_url : String
  summary : String
deriving DecidableEq, Repr

/-! ## Numeric formatting helpers

Python rounds half to even (`round`, `%.2f`); float arithmetic is
idealized as exact rational arithmetic. -/

/-- Round half to even, the semantics of Python `round` on an exact
value. -/
def roundHalfEven (q : ℚ) : ℤ :=
  let f := ⌊q⌋
  if q - f < 1 / 2 then f
  else if 1 / 2 < q - f then f + 1
  else if f % 2 = 0 then f else f + 1

/-- Python `round(x, ndigits)`. -/
def pyRound (ndigits : Nat) (q : ℚ) : ℚ :=
  (roundHalfEven (q * 10 ^ ndigits) : ℚ) / 10 ^ ndigits

/-- Left-pad a digit string with zeros to the given width. -/
def padZeros (n : Nat) (s : String) : String :=
  if s.length < n then String.mk (List.replicate (n - s.length) '0') ++ s else s

/-- Python fixed-point formatting `f"{x:.nf}"` on an exact value. -/
def formatFixed (n : Nat) (x : ℚ) : String :=
  let m := roundHalfEven (x * 10 ^ n)
  let sign := if m < 0 then "-" else ""
  let a := m.natAbs
  sign ++ toString (a / 10 ^ n) ++
    (if n = 0 then "" else "." ++ padZeros n (toString (a % 10 ^ n)))

/-- Python `repr` of a float, abstracted as a decimal rendering truncated
to seven fractional digits with trailing zeros removed; no verified claim
depends on the exact digits, only on the url being a function of the
coordinates alone. -/
def floatRepr (q : ℚ) : String :=
  let sign := if q < 0 then "-" else ""
  let a := |q|
  let ip := (⌊a⌋).natAbs
  let frac := a - ⌊a⌋
  let d := (⌊frac * 10 ^ 7⌋).natAbs
  let ds := String.mk ((padZeros 7 (toString d)).data.reverse.dropWhile
    (fun c => c = '0')).reverse
  sign ++ toString ip ++ "." ++ (if ds = "" then "0" else ds)

/-- Python `str.lower()` on a string. -/
def pyLowerStr (s : String) : String := String.mk (List.map pyLowerChar s.data)

/-! ## RoutingService (src/services/routing_service.py)

The HTTP layer is an oracle `responses : Nat → DirectionsResult` giving the
outcome of the i-th network request of one `calculate_route` call; the two
`time.time()` readings are the explicit arguments `tNow` (cache-validity
check) and `tStore` (timestamp stored with a new entry).  Sleeps are
returned as the list of waited durations, and the number of network
requests made is returned for the caching claims. -/

/-- Outcome of one directions request, covering the branches of the source:
HTTP 429, an error status raised by `raise_for_status`, a network error, a
response body without the expected route/distance/duration fields, and a
parsed success carrying `routes[0].distance` (meters) and
`routes[0].duration` (seconds). -/
inductive DirectionsResult where
  | rateLimited
  | httpError
  | requestError
  | malformed
  | success (distance duration : ℚ)
deriving DecidableEq, Repr

/-- State of a `RoutingService` instance: the TTL fixed at construction and
the cache dictionary `{(origin_name_lower, dest_name_lower): (RouteInfo,
timestamp)}`, modelled as an association list with unique keys. -/
structure RoutingService where
  cache_ttl : ℚ
  cache : List ((String × String) × RouteInfo × ℚ)
deriving DecidableEq, Repr

/-- Dictionary lookup. -/
def cacheLookup (k : String × String) :
    List ((String × String) × RouteInfo × ℚ) → Option (RouteInfo × ℚ)
  | [] => none
  | e :: rest => if e.1 = k then some e.2 else cacheLookup k rest

/-- Dictionary deletion (`del self.cache[key]`). -/
def cacheErase (k : String × String)
    (l : List ((String × String) × RouteInfo × ℚ)) :
    List ((String × String) × RouteInfo × ℚ) :=
  l.filter (fun e => e.1 ≠ k)

/-- Dictionary assignment (`self.cache[key] = value`). -/
def cacheInsert (k : String × String) (v : RouteInfo × ℚ)
    (l : List ((String × String) × RouteInfo × ℚ)) :
    List ((String × String) × RouteInfo × ℚ) :=
  (k, v) :: cacheErase k l

/-- The duration phrase of `RoutingService._create_summary` (local
variable `time_str` of the source): `duration` is in minutes,
`hours = int(duration // 60)`, `minutes = int(duration % 60)`. -/
def time_str (duration : ℚ) : String :=
  let hours : ℤ := ⌊duration / 60⌋
  let minutes : ℤ := ⌊duration - 60 * hours⌋
  if 0 < hours then
    toString hours ++ " hour" ++ (if hours ≠ 1 then "s" else "") ++ " " ++
      toString minutes ++ " min"
  else toString minutes ++ " min"

/-- Embedding of `RoutingService._create_summary`.  The three literal
prefixes reproduce the source file's exact characters. -/
def create_summary (origin_name dest_name : String)
    (distance duration : ℚ) : String :=
  "üöó Route from " ++ origin_name ++ " to " ++ dest_name ++
    ":\nüìè Distance: " ++ formatFixed 2 distance ++
    " km\n‚è±Ô∏è Estimated time: " ++ time_str duration

/-- Embedding of `RoutingService._generate_map_url`: a Google Maps deep
link built from the two locations' coordinates only. -/
def generate_map_url (origin destination : Location) : String :=
  "https://www.google.com/maps/dir/?api=1" ++
    "&origin=" ++ floatRepr origin.latitude ++ "," ++ floatRepr origin.longitude ++
    "&destination=" ++ floatRepr destination.latitude ++ "," ++
    floatRepr destination.longitude

/-- The RouteInfo built in the success branch of `calculate_route`:
distance meters→km and duration seconds→minutes, stored rounded to 2 and 1
decimals, summary built from the unrounded values. -/
def buildRouteInfo (origin destination : Location) (d t : ℚ) : RouteInfo :=
  ⟨origin, destination, pyRound 2 (d / 1000), pyRound 1 (t / 60),
    generate_map_url origin destination,
    create_summary origin.name destination.name (d / 1000) (t / 60)⟩

/-- The `while attempt <= max_retries` request loop of `calculate_route`:
`fuel` is `max_retries + 1 - attempt`, so the loop runs while fuel is
positive.  Returns the parsed success values (or none), the list of
back-off sleeps `backoff_factor * 2 ^ attempt` performed on each 429, and
the number of requests issued. -/
def routeLoop (responses : Nat → DirectionsResult) (backoff_factor : ℚ) :
    Nat → Nat → Option (ℚ × ℚ) × List ℚ × Nat
  | _, 0 => (none, [], 0)
  | attempt, fuel + 1 =>
    match responses attempt with
    | .rateLimited =>
      let r := routeLoop responses backoff_factor (attempt + 1) fuel
      (r.1, backoff_factor * 2 ^ attempt :: r.2.1, r.2.2 + 1)
    | .httpError => (none, [], 1)
    | .requestError => (none, [], 1)
    | .malformed => (none, [], 1)
    | .success d t => (some (d, t), [], 1)

/-- Result of one `calculate_route` call: the optional RouteInfo, the
service state afterwards, the sleeps performed and the network requests
issued. -/
structure RouteCallResult where
  result : Option RouteInfo
  service : RoutingService
  sleeps : List ℚ
  requests : Nat
deriving DecidableEq, Repr

/-- Network phase of `calculate_route` (everything after the cache check):
run the request loop; on success build the RouteInfo and store it in the
cache under the lower-cased name pair with the current time. -/
def routeNetwork (svc : RoutingService) (origin destination : Location)
    (responses : Nat → DirectionsResult) (tStore : ℚ)
    (max_retries : Nat) (backoff_factor : ℚ) (cache_key : String × String) :
    RouteCallResult :=
  let r := routeLoop responses backoff_factor 0 (max_retries + 1)
  match r.1 with
  | none => ⟨none, svc, r.2.1, r.2.2⟩
  | some (d, t) =>
    let route_info := buildRouteInfo origin destination d t
    ⟨some route_info,
      ⟨svc.cache_ttl, cacheInsert cache_key (route_info, tStore) svc.cache⟩,
      r.2.1, r.2.2⟩

/-- Embedding of `RoutingService.calculate_route`: cache lookup by the
case-insensitive name pair, lazy expiry (`now - timestamp < ttl`, else
evict and fall through), then the retry/backoff network loop. -/
def calculate_route (svc : RoutingService) (origin destination : Location)
    (responses : Nat → DirectionsResult) (tNow tStore : ℚ)
    (max_retries : Nat) (backoff_factor : ℚ) : RouteCallResult :=
  let cache_key := (pyLowerStr origin.name, pyLowerStr destination.name)
  match cacheLookup cache_key svc.cache with
  | some rt =>
    if tNow - rt.2 < svc.cache_ttl then ⟨some rt.1, svc, [], 0⟩
    else
      routeNetwork ⟨svc.cache_ttl, cacheErase cache_key svc.cache⟩
        origin destination responses tStore max_retries backoff_factor cache_key
  | none =>
    routeNetwork svc origin destination responses tStore max_retries
      backoff_factor cache_key


/-! ## Lemmas about the request loop and the cache dictionary -/

theorem routeLoop_step_rl {resp : Nat → DirectionsResult} {bf : ℚ} {a f : Nat}
    (h : resp a = DirectionsResult.rateLimited) :
    routeLoop resp bf a (f + 1) =
      ((routeLoop resp bf (a + 1) f).1,
       bf * 2 ^ a :: (routeLoop resp bf (a + 1) f).2.1,
       (routeLoop resp bf (a + 1) f).2.2 + 1) := by
  simp [routeLoop, h]

theorem routeLoop_step_success {resp : Nat → DirectionsResult} {bf : ℚ}
    {a f : Nat} {d t : ℚ} (h : resp a = DirectionsResult.success d t) :
    routeLoop resp bf a (f + 1) = (some (d, t), [], 1) := by
  simp [routeLoop, h]

theorem routeLoop_step_err {resp : Nat → DirectionsResult} {bf : ℚ} {a f : Nat}
    (h : resp a = DirectionsResult.httpError ∨
      resp a = DirectionsResult.requestError ∨
      resp a = DirectionsResult.malformed) :
    routeLoop resp bf a (f + 1) = (none, [], 1) := by
  rcases h with h | h | h <;> simp [routeLoop, h]

theorem routeLoop_skip (resp : Nat → DirectionsResult) (bf : ℚ) (k : Nat) :
    ∀ (a fuel : Nat), (∀ i, i < k → resp (a + i) = DirectionsResult.rateLimited) →
    routeLoop resp bf a (k + fuel) =
      ((routeLoop resp bf (a + k) fuel).1,
       (List.range k).map (fun i => bf * 2 ^ (a + i)) ++
         (routeLoop resp bf (a + k) fuel).2.1,
       (routeLoop resp bf (a + k) fuel).2.2 + k) := by
  induction k with
  | zero => intro a fuel h; simp
  | succ k ih =>
    intro a fuel h
    have h0 : resp a = DirectionsResult.rateLimited := by
      have := h 0 (by omega)
      simpa using this
    rw [show k + 1 + fuel = (k + fuel) + 1 from by omega, routeLoop_step_rl h0]
    have ih2 := ih (a + 1) fuel (by
      intro i hi
      have := h (i + 1) (by omega)
      rwa [show a + (i + 1) = a + 1 + i from by omega] at this)
    rw [ih2]
    refine congrArg₂ Prod.mk ?_ (congrArg₂ Prod.mk ?_ ?_)
    · rw [show a + 1 + k = a + (k + 1) from by omega]
    · rw [List.range_succ_eq_map, List.map_cons, List.map_map]
      rw [show a + 0 = a from rfl]
      refine congrArg₂ List.cons rfl ?_
      rw [show a + 1 + k = a + (k + 1) from by omega]
      refine congrArg₂ List.append ?_ rfl
      refine List.map_congr_left ?_
      intro i hi
      show bf * 2 ^ (a + 1 + i) = bf * 2 ^ (a + (i + 1))
      rw [show a + 1 + i = a + (i + 1) from by omega]
    · show (routeLoop resp bf (a + 1 + k) fuel).2.2 + k + 1 =
        (routeLoop resp bf (a + (k + 1)) fuel).2.2 + (k + 1)
      rw [show a + 1 + k = a + (k + 1) from by omega]
      omega

theorem cacheLookup_insert_self (k : String × String) (v : RouteInfo × ℚ)
    (l : List ((String × String) × RouteInfo × ℚ)) :
    cacheLookup k (cacheInsert k v l) = some v := by
  simp [cacheInsert, cacheLookup]

theorem cacheLookup_erase (k2 k : String × String)
    (l : List ((String × String) × RouteInfo × ℚ)) :
    cacheLookup k2 (cacheErase k l) =
      if k2 = k then none else cacheLookup k2 l := by
  induction l with
  | nil => by_cases h : k2 = k <;> simp [cacheErase, cacheLookup, h]
  | cons e rest ih =>
    by_cases he : e.1 = k
    · have hdrop : cacheErase k (e :: rest) = cacheErase k rest := by
        simp [cacheErase, List.filter_cons, he]
      rw [hdrop, ih]
      by_cases h2 : k2 = k
      · simp [h2]
      · rw [if_neg h2, if_neg h2, cacheLookup,
          if_neg (by rw [he]; intro hh; exact h2 hh.symm)]
    · have hkeep : cacheErase k (e :: rest) = e :: cacheErase k rest := by
        simp [cacheErase, List.filter_cons, he]
      rw [hkeep]
      by_cases h2 : e.1 = k2
      · have hk2 : ¬ k2 = k := by rw [← h2]; exact he
        rw [cacheLookup, if_pos h2, if_neg hk2, cacheLookup, if_pos h2]
      · rw [cacheLookup, if_neg h2, ih]
        by_cases h3 : k2 = k
        · simp [h3]
        · rw [if_neg h3, if_neg h3, cacheLookup, if_neg h2]

theorem cacheErase_erase (k : String × String)
    (l : List ((String × String) × RouteInfo × ℚ)) :
    cacheErase k (cacheErase k l) = cacheErase k l := by
  simp [cacheErase, List.filter_filter]

theorem cacheInsert_erase (k : String × String) (v : RouteInfo × ℚ)
    (l : List ((String × String) × RouteInfo × ℚ)) :
    cacheInsert k v (cacheErase k l) = cacheInsert k v l := by
  simp [cacheInsert, cacheErase_erase]


theorem routeLoop_from_zero (resp : Nat → DirectionsResult) (bf : ℚ) (k fuel : Nat)
    (h : ∀ i, i < k → resp i = DirectionsResult.rateLimited) :
    routeLoop resp bf 0 (k + fuel) =
      ((routeLoop resp bf k fuel).1,
       (List.range k).map (fun i => bf * 2 ^ i) ++ (routeLoop resp bf k fuel).2.1,
       (routeLoop resp bf k fuel).2.2 + k) := by
  have h1 := routeLoop_skip resp bf k 0 fuel (by
    intro i hi
    rw [Nat.zero_add]
    exact h i hi)
  rw [Nat.zero_add] at h1
  rw [h1]
  refine congrArg₂ Prod.mk rfl (congrArg₂ Prod.mk ?_ rfl)
  refine congrArg₂ List.append ?_ rfl
  refine List.map_congr_left ?_
  intro i hi
  rw [Nat.zero_add]

theorem calculate_route_miss (svc : RoutingService) (origin destination : Location)
    (resp : Nat → DirectionsResult) (tNow tStore : ℚ) (mr : Nat) (bf : ℚ)
    (hmiss : cacheLookup (pyLowerStr origin.name, pyLowerStr destination.name)
      svc.cache = none) :
    calculate_route svc origin destination resp tNow tStore mr bf =
      routeNetwork svc origin destination resp tStore mr bf
        (pyLowerStr origin.name, pyLowerStr destination.name) := by
  simp only [calculate_route, hmiss]

theorem routeNetwork_of_fail {svc : RoutingService} {origin destination : Location}
    {resp : Nat → DirectionsResult} {tStore : ℚ} {mr : Nat} {bf : ℚ}
    {k : String × String} {sleeps : List ℚ} {reqs : Nat}
    (h : routeLoop resp bf 0 (mr + 1) = (none, sleeps, reqs)) :
    routeNetwork svc origin destination resp tStore mr bf k =
      ⟨none, svc, sleeps, reqs⟩ := by
  simp only [routeNetwork, h]

theorem routeNetwork_of_success {svc : RoutingService} {origin destination : Location}
    {resp : Nat → DirectionsResult} {tStore : ℚ} {mr : Nat} {bf : ℚ}
    {k : String × String} {d t : ℚ} {sleeps : List ℚ} {reqs : Nat}
    (h : routeLoop resp bf 0 (mr + 1) = (some (d, t), sleeps, reqs)) :
    routeNetwork svc origin destination resp tStore mr bf k =
      ⟨some (buildRouteInfo origin destination d t),
        ⟨svc.cache_ttl,
          cacheInsert k (buildRouteInfo origin destination d t, tStore) svc.cache⟩,
        sleeps, reqs⟩ := by
  simp only [routeNetwork, h]

/-! ## Claim C2: retry exactly on 429 with exponential backoff -/

/-- C2: on a cache miss, `calculate_route` retries exactly on HTTP 429,
sleeping `backoff_factor * 2 ^ attempt` on each 429: (a) on nothing but
429s it makes `max_retries + 1` requests, sleeps the full geometric
schedule and returns none leaving the service unchanged; (b) on any other
failure after j 429s it stops immediately with j + 1 requests and only the
j sleeps already performed; (c) on a success after k 429s it returns the
built RouteInfo, cached under the lower-cased name pair, after exactly the
k delays `backoff * 2 ^ i`, i < k. -/
theorem calculate_route_retry_spec (svc : RoutingService)
    (origin destination : Location) (resp : Nat → DirectionsResult)
    (tNow tStore : ℚ) (mr : Nat) (bf : ℚ)
    (hmiss : cacheLookup (pyLowerStr origin.name, pyLowerStr destination.name)
      svc.cache = none) :
    ((∀ i, i ≤ mr → resp i = DirectionsResult.rateLimited) →
      calculate_route svc origin destination resp tNow tStore mr bf =
        ⟨none, svc, (List.range (mr + 1)).map (fun i => bf * 2 ^ i), mr + 1⟩) ∧
    (∀ j, j ≤ mr → (∀ i, i < j → resp i = DirectionsResult.rateLimited) →
      (resp j = DirectionsResult.httpError ∨ resp j = DirectionsResult.requestError ∨
        resp j = DirectionsResult.malformed) →
      calculate_route svc origin destination resp tNow tStore mr bf =
        ⟨none, svc, (List.range j).map (fun i => bf * 2 ^ i), j + 1⟩) ∧
    (∀ k d t, k ≤ mr → (∀ i, i < k → resp i = DirectionsResult.rateLimited) →
      resp k = DirectionsResult.success d t →
      calculate_route svc origin destination resp tNow tStore mr bf =
        ⟨some (buildRouteInfo origin destination d t),
          ⟨svc.cache_ttl,
            cacheInsert (pyLowerStr origin.name, pyLowerStr destination.name)
              (buildRouteInfo origin destination d t, tStore) svc.cache⟩,
          (List.range k).map (fun i => bf * 2 ^ i), k + 1⟩) := by
  refine ⟨?_, ?_, ?_⟩
  · intro hall
    have h1 := routeLoop_from_zero resp bf (mr + 1) 0 (fun i hi => hall i (by omega))
    rw [Nat.add_zero] at h1
    rw [show routeLoop resp bf (mr + 1) 0 = (none, [], 0) from rfl] at h1
    simp only [List.append_nil, Nat.zero_add] at h1
    rw [calculate_route_miss svc origin destination resp tNow tStore mr bf hmiss,
      routeNetwork_of_fail h1]
  · intro j hj h429 herr
    have h1 := routeLoop_from_zero resp bf j (mr - j + 1) h429
    rw [routeLoop_step_err herr] at h1
    simp only [List.append_nil, Nat.zero_add] at h1
    rw [show j + (mr - j + 1) = mr + 1 from by omega] at h1
    rw [calculate_route_miss svc origin destination resp tNow tStore mr bf hmiss,
      routeNetwork_of_fail h1]
    rw [show 1 + j = j + 1 from by omega]
  · intro k d t hk h429 hsucc
    have h1 := routeLoop_from_zero resp bf k (mr - k + 1) h429
    rw [routeLoop_step_success hsucc] at h1
    simp only [List.append_nil, Nat.zero_add] at h1
    rw [show k + (mr - k + 1) = mr + 1 from by omega] at h1
    rw [calculate_route_miss svc origin destination resp tNow tStore mr bf hmiss,
      routeNetwork_of_success h1]
    rw [show 1 + k = k + 1 from by omega]


/-- Concrete location used by witnesses. -/
def lagosLoc : Location := ⟨"Lagos", 65244 / 10000, 33792 / 10000, none⟩

/-- Concrete location used by witnesses. -/
def abujaLoc : Location := ⟨"Abuja", 90765 / 10000, 74985 / 10000, none⟩

/-- Oracle answering 429 twice, then success, used by the C2 witness. -/
def respTwoThenOk : Nat → DirectionsResult := fun i =>
  if i < 2 then DirectionsResult.rateLimited
  else DirectionsResult.success 1200000 18000

/-- C2 witness: two rate limits then a success, at concrete inputs. -/
theorem calculate_route_retry_spec_witness :
    calculate_route ⟨3600, []⟩ lagosLoc abujaLoc respTwoThenOk 0 5 3 1 =
      ⟨some (buildRouteInfo lagosLoc abujaLoc 1200000 18000),
        ⟨(⟨3600, []⟩ : RoutingService).cache_ttl,
          cacheInsert (pyLowerStr lagosLoc.name, pyLowerStr abujaLoc.name)
            (buildRouteInfo lagosLoc abujaLoc 1200000 18000, 5)
            (⟨3600, []⟩ : RoutingService).cache⟩,
        (List.range 2).map (fun i => (1 : ℚ) * 2 ^ i), 2 + 1⟩ :=
  (calculate_route_retry_spec ⟨3600, []⟩ lagosLoc abujaLoc respTwoThenOk 0 5 3 1
    (by decide)).2.2 2 1200000 18000 (by decide) (by decide) (by decide)

theorem cacheErase_insert (k : String × String) (v : RouteInfo × ℚ)
    (l : List ((String × String) × RouteInfo × ℚ)) :
    cacheErase k (cacheInsert k v l) = cacheErase k l := by
  rw [cacheInsert, show cacheErase k ((k, v) :: cacheErase k l) =
    cacheErase k (cacheErase k l) by simp [cacheErase, List.filter_cons],
    cacheErase_erase]

theorem cacheInsert_insert (k : String × String) (v1 v2 : RouteInfo × ℚ)
    (l : List ((String × String) × RouteInfo × ℚ)) :
    cacheInsert k v2 (cacheInsert k v1 l) = cacheInsert k v2 l := by
  rw [cacheInsert, cacheErase_insert, cacheInsert]

/-! ## Claim C3: TTL cache round trip -/

/-- C3: after a first successful `calculate_route` (one network request,
result cached under the lower-cased name pair at the store time), a second
call with the same names compared case-insensitively returns the cached
RouteInfo with zero network requests while `t2 - t1s < ttl`; once the TTL
has elapsed the expired entry is evicted and a second network request is
issued (shown both for a failing and for a succeeding second response). -/
theorem calculate_route_cache_spec (svc0 : RoutingService) (o1 d1 o2 d2 : Location)
    (resp1 resp2 : Nat → DirectionsResult) (t1 t1s t2 t2s : ℚ) (mr : Nat) (bf : ℚ)
    (dd tt : ℚ)
    (hmiss : cacheLookup (pyLowerStr o1.name, pyLowerStr d1.name) svc0.cache = none)
    (hr1 : resp1 0 = DirectionsResult.success dd tt)
    (ho : pyLowerStr o2.name = pyLowerStr o1.name)
    (hd : pyLowerStr d2.name = pyLowerStr d1.name) :
    (calculate_route svc0 o1 d1 resp1 t1 t1s mr bf).requests = 1 ∧
    (calculate_route svc0 o1 d1 resp1 t1 t1s mr bf).result =
      some (buildRouteInfo o1 d1 dd tt) ∧
    (t2 - t1s < svc0.cache_ttl →
      calculate_route (calculate_route svc0 o1 d1 resp1 t1 t1s mr bf).service
          o2 d2 resp2 t2 t2s mr bf =
        ⟨some (buildRouteInfo o1 d1 dd tt),
          (calculate_route svc0 o1 d1 resp1 t1 t1s mr bf).service, [], 0⟩) ∧
    (svc0.cache_ttl ≤ t2 - t1s →
      (resp2 0 = DirectionsResult.httpError →
        calculate_route (calculate_route svc0 o1 d1 resp1 t1 t1s mr bf).service
            o2 d2 resp2 t2 t2s mr bf =
          ⟨none, ⟨svc0.cache_ttl,
            cacheErase (pyLowerStr o1.name, pyLowerStr d1.name) svc0.cache⟩, [], 1⟩) ∧
      (∀ d2v t2v, resp2 0 = DirectionsResult.success d2v t2v →
        calculate_route (calculate_route svc0 o1 d1 resp1 t1 t1s mr bf).service
            o2 d2 resp2 t2 t2s mr bf =
          ⟨some (buildRouteInfo o2 d2 d2v t2v),
            ⟨svc0.cache_ttl,
              cacheInsert (pyLowerStr o1.name, pyLowerStr d1.name)
                (buildRouteInfo o2 d2 d2v t2v, t2s) svc0.cache⟩, [], 1⟩)) := by
  have hloop1 : routeLoop resp1 bf 0 (mr + 1) = (some (dd, tt), [], 1) :=
    routeLoop_step_success hr1
  have hcall1 : calculate_route svc0 o1 d1 resp1 t1 t1s mr bf =
      ⟨some (buildRouteInfo o1 d1 dd tt),
        ⟨svc0.cache_ttl,
          cacheInsert (pyLowerStr o1.name, pyLowerStr d1.name)
            (buildRouteInfo o1 d1 dd tt, t1s) svc0.cache⟩, [], 1⟩ := by
    rw [calculate_route_miss svc0 o1 d1 resp1 t1 t1s mr bf hmiss,
      routeNetwork_of_success hloop1]
  have hkey2 : (pyLowerStr o2.name, pyLowerStr d2.name) =
      (pyLowerStr o1.name, pyLowerStr d1.name) := by rw [ho, hd]
  refine ⟨by rw [hcall1], by rw [hcall1], ?_, ?_⟩
  · intro htt
    rw [hcall1]
    show calculate_route _ o2 d2 resp2 t2 t2s mr bf = _
    simp only [calculate_route, hkey2, cacheLookup_insert_self]
    rw [if_pos (by simpa using htt)]
  · intro htt
    have hlu2 : cacheLookup (pyLowerStr o2.name, pyLowerStr d2.name)
        (cacheInsert (pyLowerStr o1.name, pyLowerStr d1.name)
          (buildRouteInfo o1 d1 dd tt, t1s) svc0.cache) =
        some (buildRouteInfo o1 d1 dd tt, t1s) := by
      rw [hkey2, cacheLookup_insert_self]
    constructor
    · intro hresp2
      rw [hcall1]
      show calculate_route _ o2 d2 resp2 t2 t2s mr bf = _
      simp only [calculate_route, hlu2]
      rw [if_neg (by simp; simpa using htt)]
      rw [routeNetwork_of_fail (routeLoop_step_err (Or.inl hresp2))]
      rw [hkey2, cacheErase_insert]
    · intro d2v t2v hresp2
      rw [hcall1]
      show calculate_route _ o2 d2 resp2 t2 t2s mr bf = _
      simp only [calculate_route, hlu2]
      rw [if_neg (by simp; simpa using htt)]
      rw [routeNetwork_of_success (routeLoop_step_success hresp2)]
      simp only [hkey2, cacheInsert_erase, cacheInsert_insert]

/-- C3 witness: a concrete cached round trip within the TTL window. -/
theorem calculate_route_cache_spec_witness :
    calculate_route
        (calculate_route ⟨3600, []⟩ lagosLoc abujaLoc
          (fun _ => DirectionsResult.success 1200000 18000) 0 5 3 1).service
        ⟨"LAGOS", 0, 0, none⟩ ⟨"ABUJA", 1, 1, none⟩
        (fun _ => DirectionsResult.httpError) 100 100 3 1 =
      ⟨some (buildRouteInfo lagosLoc abujaLoc 1200000 18000),
        (calculate_route ⟨3600, []⟩ lagosLoc abujaLoc
          (fun _ => DirectionsResult.success 1200000 18000) 0 5 3 1).service, [], 0⟩ :=
  (calculate_route_cache_spec ⟨3600, []⟩ lagosLoc abujaLoc
    ⟨"LAGOS", 0, 0, none⟩ ⟨"ABUJA", 1, 1, none⟩
    (fun _ => DirectionsResult.success 1200000 18000)
    (fun _ => DirectionsResult.httpError) 0 5 100 100 3 1 1200000 18000
    (by decide) (by decide) (by decide) (by decide)).2.2.1 (by decide)


/-! ## Claim C5: unit conversion, rounding and the summary phrase -/

/-- C5: on a successful directions response, `calculate_route` stores the
distance in kilometres rounded to 2 decimals and the duration in minutes
rounded to 1 decimal, builds the summary from those quantities, and the
summary duration phrase omits the hours component for durations under 60
minutes while otherwise rendering "H hour(s) M min" with singular "hour"
exactly when H = 1. -/
theorem calculate_route_success_values (svc : RoutingService)
    (origin destination : Location) (resp : Nat → DirectionsResult)
    (tNow tStore : ℚ) (mr : Nat) (bf : ℚ) (d t : ℚ)
    (hmiss : cacheLookup (pyLowerStr origin.name, pyLowerStr destination.name)
      svc.cache = none)
    (hsucc : resp 0 = DirectionsResult.success d t) :
    (calculate_route svc origin destination resp tNow tStore mr bf).result =
      some (buildRouteInfo origin destination d t) ∧
    (buildRouteInfo origin destination d t).distance_km = pyRound 2 (d / 1000) ∧
    (buildRouteInfo origin destination d t).duration_minutes = pyRound 1 (t / 60) ∧
    (buildRouteInfo origin destination d t).summary =
      create_summary origin.name destination.name (d / 1000) (t / 60) ∧
    (∀ dur : ℚ, 0 ≤ dur → dur < 60 → time_str dur = toString ⌊dur⌋ ++ " min") ∧
    (∀ dur : ℚ, 60 ≤ dur →
      time_str dur = toString ⌊dur / 60⌋ ++ " hour" ++
        (if ⌊dur / 60⌋ = 1 then "" else "s") ++ " " ++
        toString ⌊dur - 60 * (⌊dur / 60⌋ : ℤ)⌋ ++ " min") := by
  refine ⟨?_, rfl, rfl, rfl, ?_, ?_⟩
  · rw [calculate_route_miss svc origin destination resp tNow tStore mr bf hmiss,
      routeNetwork_of_success (routeLoop_step_success hsucc)]
  · intro dur h0 h60
    have hfl : ⌊dur / 60⌋ = 0 := by
      rw [Int.floor_eq_zero_iff]
      exact ⟨by positivity, by rw [div_lt_one (by norm_num)]; exact h60⟩
    simp only [time_str, hfl]
    norm_num
  · intro dur h60
    have hpos : 0 < ⌊dur / 60⌋ := by
      have h1 : (1 : ℚ) ≤ dur / 60 := by
        rw [le_div_iff₀ (by norm_num)]; linarith
      have h2 : (1 : ℤ) ≤ ⌊dur / 60⌋ := Int.le_floor.mpr (by exact_mod_cast h1)
      omega
    simp only [time_str]
    rw [if_pos hpos]
    by_cases h1 : ⌊dur / 60⌋ = 1 <;> simp [h1]

/-- C5 witness: concrete success and both duration phrase shapes. -/
theorem calculate_route_success_values_witness :
    (calculate_route ⟨3600, []⟩ lagosLoc abujaLoc
        (fun _ => DirectionsResult.success 1200000 18000) 0 5 3 1).result =
      some (buildRouteInfo lagosLoc abujaLoc 1200000 18000) ∧
    time_str 150 = "2 hours 30 min" ∧
    time_str 45 = "45 min" := by
  have h := calculate_route_success_values ⟨3600, []⟩ lagosLoc abujaLoc
    (fun _ => DirectionsResult.success 1200000 18000) 0 5 3 1 1200000 18000
    (by decide) (by decide)
  refine ⟨h.1, ?_, ?_⟩
  · rw [h.2.2.2.2.2 150 (by norm_num)]
    decide
  · rw [h.2.2.2.2.1 45 (by norm_num) (by norm_num)]
    decide

/-! ## Claim C6: field signs and the map URL -/

theorem roundHalfEven_nonneg {q : ℚ} (h : 0 ≤ q) : 0 ≤ roundHalfEven q := by
  have hf : (0 : ℤ) ≤ ⌊q⌋ := Int.floor_nonneg.mpr h
  simp only [roundHalfEven]
  split
  · exact hf
  · split
    · omega
    · split <;> omega

theorem pyRound_nonneg {q : ℚ} (n : Nat) (h : 0 ≤ q) : 0 ≤ pyRound n q := by
  rw [pyRound]
  apply div_nonneg
  · exact_mod_cast roundHalfEven_nonneg (by positivity)
  · positivity

/-- C6 counterexample: a provider response with negative distance and
duration values yields a RouteInfo whose `distance_km` and
`duration_minutes` are negative — `calculate_route` performs no sign
validation on the response body. -/
theorem calculate_route_negative_fields :
    ((calculate_route ⟨3600, []⟩ lagosLoc abujaLoc
        (fun _ => DirectionsResult.success (-1000) (-120)) 0 5 3 1).result.map
      (fun r => r.distance_km)) = some (-1) ∧
    ((calculate_route ⟨3600, []⟩ lagosLoc abujaLoc
        (fun _ => DirectionsResult.success (-1000) (-120)) 0 5 3 1).result.map
      (fun r => r.duration_minutes)) = some (-2) ∧
    ((-1 : ℚ) < 0 ∧ (-2 : ℚ) < 0) := by
  constructor
  · rw [calculate_route_miss ⟨3600, []⟩ lagosLoc abujaLoc _ 0 5 3 1 (by decide),
      routeNetwork_of_success (routeLoop_step_success rfl)]
    decide
  constructor
  · rw [calculate_route_miss ⟨3600, []⟩ lagosLoc abujaLoc _ 0 5 3 1 (by decide),
      routeNetwork_of_success (routeLoop_step_success rfl)]
    decide
  · decide

/-- C6 amended: `map_url` is indeed built solely from the two input
locations (it equals `generate_map_url origin destination`, which mentions
only the coordinates), but `distance_km` and `duration_minutes` are
non-negative only under the extra hypothesis that the provider values are
non-negative. -/
theorem calculate_route_fields_amended (svc : RoutingService)
    (origin destination : Location) (resp : Nat → DirectionsResult)
    (tNow tStore : ℚ) (mr : Nat) (bf : ℚ) (d t : ℚ)
    (hmiss : cacheLookup (pyLowerStr origin.name, pyLowerStr destination.name)
      svc.cache = none)
    (hsucc : resp 0 = DirectionsResult.success d t) :
    (calculate_route svc origin destination resp tNow tStore mr bf).result =
      some (buildRouteInfo origin destination d t) ∧
    (0 ≤ d → 0 ≤ (buildRouteInfo origin destination d t).distance_km) ∧
    (0 ≤ t → 0 ≤ (buildRouteInfo origin destination d t).duration_minutes) ∧
    (buildRouteInfo origin destination d t).map_url =
      generate_map_url origin destination := by
  refine ⟨?_, ?_, ?_, rfl⟩
  · rw [calculate_route_miss svc origin destination resp tNow tStore mr bf hmiss,
      routeNetwork_of_success (routeLoop_step_success hsucc)]
  · intro hd
    exact pyRound_nonneg 2 (by positivity)
  · intro ht
    exact pyRound_nonneg 1 (by positivity)

/-- C6 amended witness: concrete non-negative provider values. -/
theorem calculate_route_fields_amended_witness :
    (calculate_route ⟨3600, []⟩ lagosLoc abujaLoc
        (fun _ => DirectionsResult.success 1200000 18000) 0 5 3 1).result =
      some (buildRouteInfo lagosLoc abujaLoc 1200000 18000) ∧
    (0 : ℚ) ≤ (buildRouteInfo lagosLoc abujaLoc 1200000 18000).distance_km ∧
    (0 : ℚ) ≤ (buildRouteInfo lagosLoc abujaLoc 1200000 18000).duration_minutes ∧
    (buildRouteInfo lagosLoc abujaLoc 1200000 18000).map_url =
      generate_map_url lagosLoc abujaLoc := by
  have h := calculate_route_fields_amended ⟨3600, []⟩ lagosLoc abujaLoc
    (fun _ => DirectionsResult.success 1200000 18000) 0 5 3 1 1200000 18000
    (by decide) (by decide)
  exact ⟨h.1, h.2.1 (by norm_num), h.2.2.1 (by norm_num), h.2.2.2⟩


/-! ## Claim C10: reachable-state cache consistency -/

/-- States of a `RoutingService` reachable from a fresh service (empty
cache) by any sequence of `calculate_route` calls. -/
inductive Reachable : RoutingService → Prop
  | init (ttl : ℚ) : Reachable ⟨ttl, []⟩
  | step (svc : RoutingService) (origin destination : Location)
      (resp : Nat → DirectionsResult) (tNow tStore : ℚ) (mr : Nat) (bf : ℚ) :
      Reachable svc →
      Reachable (calculate_route svc origin destination resp
        tNow tStore mr bf).service

/-- Every cache entry is stored under the lower-cased name pair of the
RouteInfo it holds. -/
def CacheConsistent (svc : RoutingService) : Prop :=
  ∀ k ri ts, cacheLookup k svc.cache = some (ri, ts) →
    k = (pyLowerStr ri.origin.name, pyLowerStr ri.destination.name)

theorem cacheLookup_insert (k k2 : String × String) (v : RouteInfo × ℚ)
    (l : List ((String × String) × RouteInfo × ℚ)) :
    cacheLookup k2 (cacheInsert k v l) =
      if k = k2 then some v else cacheLookup k2 l := by
  rw [cacheInsert, cacheLookup]
  by_cases h : k = k2
  · rw [if_pos h, if_pos h]
  · rw [if_neg h, if_neg h, cacheLookup_erase,
      if_neg (fun hh => h hh.symm)]

theorem calculate_route_state_cases (svc : RoutingService)
    (origin destination : Location) (resp : Nat → DirectionsResult)
    (tNow tStore : ℚ) (mr : Nat) (bf : ℚ) :
    (calculate_route svc origin destination resp tNow tStore mr bf).service = svc ∨
    (calculate_route svc origin destination resp tNow tStore mr bf).service =
      ⟨svc.cache_ttl,
        cacheErase (pyLowerStr origin.name, pyLowerStr destination.name) svc.cache⟩ ∨
    ∃ d t, (calculate_route svc origin destination resp tNow tStore mr bf).service =
      ⟨svc.cache_ttl,
        cacheInsert (pyLowerStr origin.name, pyLowerStr destination.name)
          (buildRouteInfo origin destination d t, tStore) svc.cache⟩ := by
  simp only [calculate_route]
  cases hlu : cacheLookup (pyLowerStr origin.name, pyLowerStr destination.name)
      svc.cache with
  | some rt =>
    dsimp only
    by_cases htt : tNow - rt.2 < svc.cache_ttl
    · rw [if_pos htt]
      exact Or.inl rfl
    · rw [if_neg htt]
      simp only [routeNetwork]
      cases hr : (routeLoop resp bf 0 (mr + 1)).1 with
      | none => exact Or.inr (Or.inl rfl)
      | some p =>
        obtain ⟨d, t⟩ := p
        refine Or.inr (Or.inr ⟨d, t, ?_⟩)
        dsimp only
        simp [cacheInsert_erase]
  | none =>
    dsimp only
    simp only [routeNetwork]
    cases hr : (routeLoop resp bf 0 (mr + 1)).1 with
    | none => exact Or.inl rfl
    | some p =>
      obtain ⟨d, t⟩ := p
      refine Or.inr (Or.inr ⟨d, t, ?_⟩)
      dsimp only

/-- C10: in every service state reachable by `calculate_route` calls, each
cache entry under key (o, d) holds a RouteInfo whose lower-cased origin and
destination names are exactly (o, d); moreover after any single call, an
entry found under the call's own key carries the call's store time as its
timestamp unless it was already in the cache unchanged before the call. -/
theorem cache_entries_consistent :
    (∀ svc, Reachable svc → CacheConsistent svc) ∧
    (∀ svc origin destination resp tNow tStore mr bf ri ts,
      cacheLookup (pyLowerStr origin.name, pyLowerStr destination.name)
        (calculate_route svc origin destination resp
          tNow tStore mr bf).service.cache = some (ri, ts) →
      ts = tStore ∨
        cacheLookup (pyLowerStr origin.name, pyLowerStr destination.name)
          svc.cache = some (ri, ts)) := by
  constructor
  · intro svc h
    induction h with
    | init ttl =>
      intro k ri ts hl
      simp [cacheLookup] at hl
    | step svc origin destination resp tNow tStore mr bf hsvc ih =>
      rcases calculate_route_state_cases svc origin destination resp
          tNow tStore mr bf with hc | hc | ⟨dv, tv, hc⟩
      · rw [hc]
        exact ih
      · intro k ri ts hl
        rw [hc] at hl
        rw [show (⟨svc.cache_ttl, cacheErase
            (pyLowerStr origin.name, pyLowerStr destination.name) svc.cache⟩ :
            RoutingService).cache = cacheErase
            (pyLowerStr origin.name, pyLowerStr destination.name) svc.cache
          from rfl, cacheLookup_erase] at hl
        by_cases hk : k = (pyLowerStr origin.name, pyLowerStr destination.name)
        · rw [if_pos hk] at hl
          exact absurd hl (by simp)
        · rw [if_neg hk] at hl
          exact ih k ri ts hl
      · intro k ri ts hl
        rw [hc] at hl
        rw [show (⟨svc.cache_ttl, cacheInsert
            (pyLowerStr origin.name, pyLowerStr destination.name)
            (buildRouteInfo origin destination dv tv, tStore) svc.cache⟩ :
            RoutingService).cache = cacheInsert
            (pyLowerStr origin.name, pyLowerStr destination.name)
            (buildRouteInfo origin destination dv tv, tStore) svc.cache
          from rfl, cacheLookup_insert] at hl
        by_cases hk : (pyLowerStr origin.name, pyLowerStr destination.name) = k
        · rw [if_pos hk] at hl
          obtain ⟨h1, h2⟩ := Prod.mk.inj (Option.some.inj hl)
          subst h1
          exact hk.symm
        · rw [if_neg hk] at hl
          exact ih k ri ts hl
  · intro svc origin destination resp tNow tStore mr bf ri ts hl
    rcases calculate_route_state_cases svc origin destination resp
        tNow tStore mr bf with hc | hc | ⟨dv, tv, hc⟩
    · rw [hc] at hl
      exact Or.inr hl
    · rw [hc] at hl
      rw [show (⟨svc.cache_ttl, cacheErase
          (pyLowerStr origin.name, pyLowerStr destination.name) svc.cache⟩ :
          RoutingService).cache = cacheErase
          (pyLowerStr origin.name, pyLowerStr destination.name) svc.cache
        from rfl, cacheLookup_erase, if_pos rfl] at hl
      exact absurd hl (by simp)
    · rw [hc] at hl
      rw [show (⟨svc.cache_ttl, cacheInsert
          (pyLowerStr origin.name, pyLowerStr destination.name)
          (buildRouteInfo origin destination dv tv, tStore) svc.cache⟩ :
          RoutingService).cache = cacheInsert
          (pyLowerStr origin.name, pyLowerStr destination.name)
          (buildRouteInfo origin destination dv tv, tStore) svc.cache
        from rfl, cacheLookup_insert, if_pos rfl] at hl
      obtain ⟨h1, h2⟩ := Prod.mk.inj (Option.some.inj hl)
      exact Or.inl h2.symm

/-- C10 witness: the invariant at a concrete reachable state. -/
theorem cache_entries_consistent_witness :
    CacheConsistent (calculate_route ⟨3600, []⟩ lagosLoc abujaLoc
      respTwoThenOk 0 5 3 1).service :=
  cache_entries_consistent.1 _
    (Reachable.step ⟨3600, []⟩ lagosLoc abujaLoc respTwoThenOk 0 5 3 1
      (Reachable.init 3600))


/-! ## The agent orchestration layer (`services/agent_service.py`)

Geocoding and routing are abstracted by an environment of oracles: a call
either raises (`Except.error`), returns no result (`Except.ok none`), or
returns a value.  The observable side effects (geocode calls, route calls
and back-off sleeps) are returned as an event trace. -/

/-- External effects of `MapRouteAgent`: geocoding and routing oracles,
indexed by the retry attempt on which the call is made. -/
structure AgentEnv where
  geocode : Nat → String → Except String (Option Location)
  route : Nat → Location → Location → Except String (Option RouteInfo)

/-- Observable calls and sleeps performed by `_get_route_with_retry`. -/
inductive AgentEvent where
  | geocodeCall (attempt : Nat) (name : String)
  | routeCall (attempt : Nat)
  | sleepEvent (delay : ℚ)
deriving DecidableEq, Repr

/-- The response model `TelexResponse`: text, link attachments
(type, url, title), quick replies, and numeric metadata. -/
structure TelexResponse where
  text : String
  attachments : List (String × String × String)
  quick_replies : List String
  metadata : Option (ℚ × ℚ)
deriving DecidableEq, Repr

/-- `MapRouteAgent._create_help_response`. -/
def help_response : TelexResponse :=
  ⟨"👋 Hi! I'm your MapRoute assistant.

I can help you find directions between locations.

Try asking:
• 'directions from Lagos to Abuja'
• 'route from New York to Boston'
• 'how to get from Paris to London'",
    [], ["Get directions", "Example route"], none⟩

/-- `MapRouteAgent._create_parse_error_response`. -/
def parse_error_response : TelexResponse :=
  ⟨"❌ I couldn't understand your request.

Please use the format:
'directions from [origin] to [destination]'

Example: 'directions from Lagos to Abuja'",
    [], ["Help", "Try again"], none⟩

/-- `MapRouteAgent._create_validation_error_response`. -/
def validation_error_response (location_type error : String) : TelexResponse :=
  ⟨"❌ Invalid " ++ location_type ++ ": " ++ error ++
    "

Please try again with a valid location name.",
    [], ["Help", "Try again"], none⟩

/-- `MapRouteAgent._create_route_error_response`. -/
def route_error_response (origin destination : String) : TelexResponse :=
  ⟨"❌ Sorry, I couldn't find a route from " ++ origin ++ " to " ++
    destination ++
    ".

This might be because:
• One or both locations couldn't be found
• There's no drivable route between them
• The routing service is temporarily unavailable

Please check the location names and try again.",
    [], ["Try different locations", "Help"], none⟩

/-- `MapRouteAgent._create_success_response`. -/
def success_response (route_info : RouteInfo) : TelexResponse :=
  ⟨route_info.summary,
    [("link", route_info.map_url, "📍 View on Google Maps")],
    ["Get another route", "Help"],
    some (route_info.distance_km, route_info.duration_minutes)⟩

/-- The `for attempt in range(retries)` loop of
`MapRouteAgent._get_route_with_retry`, with `fuel` the number of remaining
iterations.  `asyncio.gather` issues both geocode calls; an exception from
either is caught by the `except Exception` handler, which sleeps
`retry_delay * 2 ** attempt` and moves to the next attempt unless this was
the last one.  A geocode returning `None` makes the whole loop return
`None` at once; a route calculation returning `None` retries. -/
def get_route_aux (env : AgentEnv) (oname dname : String) (retry_delay : ℚ)
    (retries : Nat) : Nat → Nat → Option RouteInfo × List AgentEvent
  | _, 0 => (none, [])
  | attempt, fuel + 1 =>
    let ev0 := [AgentEvent.geocodeCall attempt oname,
      AgentEvent.geocodeCall attempt dname]
    match env.geocode attempt oname with
    | Except.error _ =>
      if attempt < retries - 1 then
        let rest := get_route_aux env oname dname retry_delay retries
          (attempt + 1) fuel
        (rest.1, ev0 ++
          AgentEvent.sleepEvent (retry_delay * 2 ^ attempt) :: rest.2)
      else (none, ev0)
    | Except.ok oRes =>
      match env.geocode attempt dname with
      | Except.error _ =>
        if attempt < retries - 1 then
          let rest := get_route_aux env oname dname retry_delay retries
            (attempt + 1) fuel
          (rest.1, ev0 ++
            AgentEvent.sleepEvent (retry_delay * 2 ^ attempt) :: rest.2)
        else (none, ev0)
      | Except.ok dRes =>
        match oRes with
        | none => (none, ev0)
        | some oloc =>
          match dRes with
          | none => (none, ev0)
          | some dloc =>
            match env.route attempt oloc dloc with
            | Except.error _ =>
              if attempt < retries - 1 then
                let rest := get_route_aux env oname dname retry_delay retries
                  (attempt + 1) fuel
                (rest.1, ev0 ++ AgentEvent.routeCall attempt ::
                  AgentEvent.sleepEvent (retry_delay * 2 ^ attempt) :: rest.2)
              else (none, ev0 ++ [AgentEvent.routeCall attempt])
            | Except.ok (some route_info) =>
              (some route_info, ev0 ++ [AgentEvent.routeCall attempt])
            | Except.ok none =>
              if attempt < retries - 1 then
                let rest := get_route_aux env oname dname retry_delay retries
                  (attempt + 1) fuel
                (rest.1, ev0 ++ AgentEvent.routeCall attempt ::
                  AgentEvent.sleepEvent (retry_delay * 2 ^ attempt) :: rest.2)
              else (none, ev0 ++ [AgentEvent.routeCall attempt])

/-- `MapRouteAgent._get_route_with_retry` with its default
`retries = settings.max_retries`. -/
def get_route_with_retry (env : AgentEnv) (oname dname : String)
    (retry_delay : ℚ) (retries : Nat) : Option RouteInfo × List AgentEvent :=
  get_route_aux env oname dname retry_delay retries 0 retries

/-- Embedding of `MapRouteAgent.process_message`: keyword gate, parse,
validate origin then destination, sanitize, then the retry loop; every
path produces a `TelexResponse`. -/
def process_message (env : AgentEnv) (message : String) (retry_delay : ℚ)
    (retries : Nat) : TelexResponse × List AgentEvent :=
  if is_route_request message = false then (help_response, [])
  else
    match parse_route_request message with
    | none => (parse_error_response, [])
    | some (origin_name, dest_name) =>
      if (validate_location origin_name).1 = false then
        (validation_error_response "origin"
          ((validate_location origin_name).2.getD "None"), [])
      else if (validate_location dest_name).1 = false then
        (validation_error_response "destination"
          ((validate_location dest_name).2.getD "None"), [])
      else
        match get_route_with_retry env (sanitize_location origin_name)
            (sanitize_location dest_name) retry_delay retries with
        | (none, evs) =>
          (route_error_response (sanitize_location origin_name)
            (sanitize_location dest_name), evs)
        | (some route_info, evs) => (success_response route_info, evs)


/-! ## Claims C1 and C4: orchestration error handling -/

/-- An environment in which every external call raises. -/
def envFault : AgentEnv :=
  ⟨fun _ _ => Except.error "boom", fun _ _ _ => Except.error "boom"⟩

/-- An environment in which geocoding always returns no result. -/
def envNone : AgentEnv :=
  ⟨fun _ _ => Except.ok none, fun _ _ _ => Except.error "unused"⟩

theorem get_route_aux_fault (env : AgentEnv) (oname dname : String)
    (retry_delay : ℚ) (retries : Nat)
    (hf : ∀ a n, ∃ e, env.geocode a n = Except.error e) :
    ∀ f a, (get_route_aux env oname dname retry_delay retries a f).1 = none := by
  intro f
  induction f with
  | zero => intro a; rfl
  | succ f ih =>
    intro a
    obtain ⟨e, he⟩ := hf a oname
    simp only [get_route_aux, he]
    by_cases h : a < retries - 1
    · rw [if_pos h]
      exact ih (a + 1)
    · rw [if_neg h]

/-- C1 counterexample: internal faults in the pipeline are not converted
to one generic apologetic response — the two fault runs below yield
*different* route-error responses, each naming the two parsed locations. -/
theorem process_message_fault_not_generic :
    (process_message envFault "directions from Lagos to Abuja" 1 3).1 =
      route_error_response "Lagos" "Abuja" ∧
    (process_message envFault "directions from Kano to Jos" 1 3).1 =
      route_error_response "Kano" "Jos" ∧
    (process_message envFault "directions from Lagos to Abuja" 1 3).1 ≠
      (process_message envFault "directions from Kano to Jos" 1 3).1 := by
  refine ⟨?_, ?_, ?_⟩ <;> decide

/-- C1 amended: `process_message` is total — under an environment whose
external calls all raise, every message still gets one of the four
non-success responses, and whenever the message passes the keyword gate,
the parser and both validations, the pipeline fault is converted to the
route-error response naming the sanitized locations (not to a generic
message independent of the input). -/
theorem process_message_fault_amended (env : AgentEnv) (message : String)
    (retry_delay : ℚ) (retries : Nat)
    (hf : ∀ a n, ∃ e, env.geocode a n = Except.error e) :
    ((process_message env message retry_delay retries).1 = help_response ∨
     (process_message env message retry_delay retries).1 = parse_error_response ∨
     (∃ lt er, (process_message env message retry_delay retries).1 =
        validation_error_response lt er) ∨
     (∃ o d, (process_message env message retry_delay retries).1 =
        route_error_response o d)) ∧
    (∀ o d, parse_route_request message = some (o, d) →
      is_route_request message = true →
      (validate_location o).1 = true →
      (validate_location d).1 = true →
      (process_message env message retry_delay retries).1 =
        route_error_response (sanitize_location o) (sanitize_location d)) := by
  have key : ∀ o d : String,
      (get_route_with_retry env (sanitize_location o) (sanitize_location d)
        retry_delay retries).1 = none :=
    fun o d => get_route_aux_fault env (sanitize_location o)
      (sanitize_location d) retry_delay retries hf retries 0
  constructor
  · by_cases hreq : is_route_request message = false
    · left
      simp [process_message, hreq]
    · cases hp : parse_route_request message with
      | none =>
        right; left
        simp [process_message, hreq, hp]
      | some p =>
        obtain ⟨o, d⟩ := p
        by_cases hov : (validate_location o).1 = false
        · right; right; left
          refine ⟨"origin", (validate_location o).2.getD "None", ?_⟩
          simp [process_message, hreq, hp, hov]
        · by_cases hdv : (validate_location d).1 = false
          · right; right; left
            refine ⟨"destination", (validate_location d).2.getD "None", ?_⟩
            simp [process_message, hreq, hp, hov, hdv]
          · right; right; right
            refine ⟨sanitize_location o, sanitize_location d, ?_⟩
            have hk := key o d
            simp only [process_message, hreq, if_false, hp, hov, hdv]
            cases hr : get_route_with_retry env (sanitize_location o)
                (sanitize_location d) retry_delay retries with
            | mk r evs =>
              rw [hr] at hk
              cases r with
              | none => simp
              | some ri => exact absurd hk (by simp)
  · intro o d hp hreq hov hdv
    have hk := key o d
    simp only [process_message, hreq, if_false, hp, hov, hdv]
    cases hr : get_route_with_retry env (sanitize_location o)
        (sanitize_location d) retry_delay retries with
    | mk r evs =>
      rw [hr] at hk
      cases r with
      | none => simp
      | some ri => exact absurd hk (by simp)

/-- C1 amended witness: the faulting environment at a concrete message. -/
theorem process_message_fault_amended_witness :
    (process_message envFault "directions from Lagos to Abuja" 2 3).1 =
      route_error_response (sanitize_location "Lagos")
        (sanitize_location "Abuja") :=
  (process_message_fault_amended envFault "directions from Lagos to Abuja" 2 3
      (fun _ _ => ⟨"boom", rfl⟩)).2 "Lagos" "Abuja"
    (by decide) (by decide) (by decide) (by decide)

/-- C4: a geocode returning no result for the origin (or, with the origin
found, for the destination) on the first attempt abandons the whole retry
loop at once: `process_message` returns the route-error response and the
complete event trace is the two geocode calls of attempt 0 — no route
call, no sleep, no further attempt. -/
theorem process_message_geocode_none (env : AgentEnv) (message o d : String)
    (retry_delay : ℚ) (retries : Nat)
    (hreq : is_route_request message = true)
    (hp : parse_route_request message = some (o, d))
    (hov : (validate_location o).1 = true)
    (hdv : (validate_location d).1 = true)
    (hnone : (env.geocode 0 (sanitize_location o) = Except.ok none ∧
        ∃ r, env.geocode 0 (sanitize_location d) = Except.ok r) ∨
      ((∃ loc, env.geocode 0 (sanitize_location o) = Except.ok (some loc)) ∧
        env.geocode 0 (sanitize_location d) = Except.ok none))
    (hret : 0 < retries) :
    process_message env message retry_delay retries =
      (route_error_response (sanitize_location o) (sanitize_location d),
        [AgentEvent.geocodeCall 0 (sanitize_location o),
         AgentEvent.geocodeCall 0 (sanitize_location d)]) := by
  obtain ⟨fuel, hfuel⟩ : ∃ fuel, retries = fuel + 1 :=
    ⟨retries - 1, by omega⟩
  have hloop : get_route_with_retry env (sanitize_location o)
      (sanitize_location d) retry_delay retries =
      (none, [AgentEvent.geocodeCall 0 (sanitize_location o),
        AgentEvent.geocodeCall 0 (sanitize_location d)]) := by
    rw [get_route_with_retry, hfuel]
    rcases hnone with ⟨h1, r, h2⟩ | ⟨⟨loc, h1⟩, h2⟩
    · simp only [get_route_aux, h1, h2]
    · simp only [get_route_aux, h1, h2]
  simp [process_message, hreq, hp, hov, hdv, hloop]

/-- C4 witness: geocoding returns no result at a concrete message. -/
theorem process_message_geocode_none_witness :
    process_message envNone "directions from Lagos to Abuja" 1 3 =
      (route_error_response (sanitize_location "Lagos")
          (sanitize_location "Abuja"),
        [AgentEvent.geocodeCall 0 (sanitize_location "Lagos"),
         AgentEvent.geocodeCall 0 (sanitize_location "Abuja")]) :=
  process_message_geocode_none envNone "directions from Lagos to Abuja"
    "Lagos" "Abuja" 1 3 (by decide) (by decide) (by decide) (by decide)
    (Or.inl ⟨rfl, none, rfl⟩) (by decide)

end MapRoute
